import Mathlib

/-!
Verification of the subtitle-writer and PDF-metadata utilities.

This file is a shallow embedding of two Python modules:

* `whisper-transcriber/.../faster_whisper/utils.py` — `format_timestamp`
  and the `ResultWriter` subclasses (`WriteTXT`, `WriteVTT`, `WriteSRT`,
  `WriteTSV`, `WriteJSON`);
* `pdf-text-converter/.../text-converter/metadata.py` — `to_date` and
  `get_document_metadata`.

Exact rationals stand in for Python floats (all claims are about exactly
representable values), `List Char` / `String` for Python strings, and
`List ℕ` for byte strings.  Python library primitives used by the code
(`round`, `str.strip`, `str.replace`, `str.split`, `bytes.decode`,
`time.strptime`, `json.dump`/`json.loads`) are embedded as executable
Lean functions next to the functions that call them.
-/

namespace Spec2Proof

/-! ## Decimal rendering (Python integer formatting) -/

/-- Fuel-indexed helper for `natDigits`; structural recursion on the fuel
so that it evaluates by kernel reduction. -/
def natDigitsAux : ℕ → ℕ → List Char
  | 0, _ => []
  | fuel + 1, n =>
    if n < 10 then [Nat.digitChar n]
    else natDigitsAux fuel (n / 10) ++ [Nat.digitChar (n % 10)]

/-- Decimal digit characters of a natural number, most significant first;
the digit string produced by Python integer formatting. -/
def natDigits (n : ℕ) : List Char := natDigitsAux (n + 1) n

theorem natDigitsAux_congr : ∀ (f g n : ℕ), n < f → n < g →
    natDigitsAux f n = natDigitsAux g n := by
  intro f
  induction f with
  | zero => omega
  | succ f ih =>
    intro g n hf hg
    match g, hg with
    | g + 1, _ =>
      show (if n < 10 then _ else _) = (if n < 10 then _ else _)
      by_cases h : n < 10
      · simp [h]
      · have hdiv : n / 10 < n := Nat.div_lt_self (by omega) (by omega)
        simp only [if_neg h]
        rw [ih g (n / 10) (by omega) (by omega)]

/-- Unfolding equation for `natDigits`. -/
theorem natDigits_eq (n : ℕ) : natDigits n =
    if n < 10 then [Nat.digitChar n]
    else natDigits (n / 10) ++ [Nat.digitChar (n % 10)] := by
  show (if n < 10 then _ else _) = _
  by_cases h : n < 10
  · simp [h]
  · have hdiv : n / 10 < n := Nat.div_lt_self (by omega) (by omega)
    simp only [if_neg h]
    rw [natDigitsAux_congr n (n / 10 + 1) (n / 10) (by omega) (by omega)]
    rfl

/-- Python `str` of an `int`: minus sign for negatives, decimal digits. -/
def intRender (n : ℤ) : List Char :=
  if n < 0 then '-' :: natDigits n.natAbs else natDigits n.toNat

/-- Python `f"{n:0wd}"` on a natural number: left-pad the digit string
with zeros to width `w`. -/
def zeroPadNat (w n : ℕ) : String :=
  String.mk (List.replicate (w - (natDigits n).length) '0' ++ natDigits n)

/-- Python `f"{n:0wd}"` on an integer: for negatives the sign counts
towards the width and the zeros come after the sign. -/
def zeroPadInt (w : ℕ) (n : ℤ) : String :=
  if n < 0 then ("-") ++ zeroPadNat (w - 1) n.natAbs else zeroPadNat w n.toNat

/-! ## Python `round` on exact values -/

/-- Floor of a rational, computed directly on the numerator and
denominator so that it evaluates by kernel reduction. -/
def ratFloor (q : ℚ) : ℤ := Int.fdiv q.num q.den

theorem ratFloor_nonneg {q : ℚ} (h : 0 ≤ q) : 0 ≤ ratFloor q :=
  Int.fdiv_nonneg (Rat.num_nonneg.mpr h) (by exact_mod_cast q.den.zero_le)

/-- Python `round()` on an exact rational value: nearest integer, ties to
even (the model of `round(seconds * 1000.0)` for exactly representable
inputs). -/
def pyRound (q : ℚ) : ℤ :=
  if q - ratFloor q < 1 / 2 then ratFloor q
  else if (1 : ℚ) / 2 < q - ratFloor q then ratFloor q + 1
  else if 2 ∣ ratFloor q then ratFloor q else ratFloor q + 1

theorem pyRound_nonneg {q : ℚ} (h : 0 ≤ q) : 0 ≤ pyRound q := by
  have h0 : (0 : ℤ) ≤ ratFloor q := ratFloor_nonneg h
  unfold pyRound
  split_ifs <;> omega

theorem ratFloor_intCast (n : ℤ) : ratFloor ((n : ℚ)) = n := by
  rw [ratFloor, Rat.num_intCast, Rat.den_intCast]
  exact Int.fdiv_one n

/-- Rounding an exact integer value returns it unchanged; used to evaluate
`format_timestamp` at concrete inputs. -/
theorem pyRound_intCast (n : ℤ) : pyRound ((n : ℚ)) = n := by
  unfold pyRound
  rw [ratFloor_intCast]
  norm_num

/-! ## `format_timestamp` (utils.py lines 28–41) -/

/-- Embedding of `format_timestamp` from `faster_whisper/utils.py`:
round to integer milliseconds, peel off hours / minutes / seconds by
floor division and subtraction, zero-pad, and show the hour field only
when `always_include_hours` is set or the hour is positive. -/
def format_timestamp (seconds : ℚ) (always_include_hours : Bool := false)
    (decimal_marker : String := ".") : String :=
  let milliseconds := pyRound (seconds * 1000)
  let hours := Int.fdiv milliseconds 3600000
  let afterHours := milliseconds - hours * 3600000
  let minutes := Int.fdiv afterHours 60000
  let afterMinutes := afterHours - minutes * 60000
  let secs := Int.fdiv afterMinutes 1000
  let msecs := afterMinutes - secs * 1000
  let hoursMarker :=
    if always_include_hours || decide (0 < hours) then zeroPadInt 2 hours ++ (":") else ("")
  hoursMarker ++ zeroPadInt 2 minutes ++ (":") ++ zeroPadInt 2 secs
    ++ decimal_marker ++ zeroPadInt 3 msecs

example : format_timestamp 0 false (".") = ("00:00.000") := by
  have h : (0 : ℚ) * 1000 = (((0 : ℤ)) : ℚ) := by norm_num
  simp only [format_timestamp, h, pyRound_intCast]
  decide

example : format_timestamp (7323 / 2) true (".") = ("01:01:01.500") := by
  have h : (7323 / 2 : ℚ) * 1000 = (((3661500 : ℤ)) : ℚ) := by norm_num
  simp only [format_timestamp, h, pyRound_intCast]
  decide

/-- Normal form of `format_timestamp` for non-negative inputs: the floor
divisions and running subtractions of the source reduce to division and
remainder of the rounded millisecond count. -/
theorem format_timestamp_normal (s : ℚ) (aih : Bool) (mk : String) (h : 0 ≤ s) :
    format_timestamp s aih mk =
      (if pyRound (s * 1000) / 3600000 = 0 ∧ aih = false then ("")
        else zeroPadInt 2 (pyRound (s * 1000) / 3600000) ++ (":"))
      ++ zeroPadInt 2 (pyRound (s * 1000) % 3600000 / 60000) ++ (":")
      ++ zeroPadInt 2 (pyRound (s * 1000) % 60000 / 1000)
      ++ mk ++ zeroPadInt 3 (pyRound (s * 1000) % 1000) := by
  have hms : 0 ≤ pyRound (s * 1000) := pyRound_nonneg (by positivity)
  unfold format_timestamp
  dsimp only
  set ms := pyRound (s * 1000) with hdef
  have f1 : Int.fdiv ms 3600000 = ms / 3600000 := Int.fdiv_eq_ediv ms (by norm_num)
  have e1 : ms - ms / 3600000 * 3600000 = ms % 3600000 := by omega
  have f2 : Int.fdiv (ms % 3600000) 60000 = ms % 3600000 / 60000 :=
    Int.fdiv_eq_ediv _ (by norm_num)
  have e2 : ms % 3600000 - ms % 3600000 / 60000 * 60000 = ms % 60000 := by omega
  have f3 : Int.fdiv (ms % 60000) 1000 = ms % 60000 / 1000 :=
    Int.fdiv_eq_ediv _ (by norm_num)
  have e3 : ms % 60000 - ms % 60000 / 1000 * 1000 = ms % 1000 := by omega
  rw [f1, e1, f2, e2, f3, e3]
  have hcond : (aih || decide (0 < ms / 3600000)) = true ↔
      ¬(ms / 3600000 = 0 ∧ aih = false) := by
    have : 0 ≤ ms / 3600000 := by omega
    rcases aih
    · simp
      omega
    · simp
  by_cases hc : ms / 3600000 = 0 ∧ aih = false
  · rw [if_neg (by rw [hcond]; exact fun hh => hh hc), if_pos hc]
  · rw [if_pos (hcond.mpr hc), if_neg hc]

/-- C1: `format_timestamp` converts a non-negative seconds value to integer
milliseconds by rounding, decomposes them by successive integer division
into hours, minutes, seconds and milliseconds, zero-pads hours, minutes and
seconds to 2 digits and milliseconds to 3 digits, and omits the leading
hour segment exactly when hours = 0 and `always_include_hours` is false; in
particular `format_timestamp 0 = "00:00.000"` and
`format_timestamp 3661.5 (always_include_hours := true) = "01:01:01.500"`. -/
theorem C1_format_timestamp (s : ℚ) (aih : Bool) (mk : String) (h : 0 ≤ s) :
    (format_timestamp s aih mk =
      (if pyRound (s * 1000) / 3600000 = 0 ∧ aih = false then ("")
        else zeroPadInt 2 (pyRound (s * 1000) / 3600000) ++ (":"))
      ++ zeroPadInt 2 (pyRound (s * 1000) % 3600000 / 60000) ++ (":")
      ++ zeroPadInt 2 (pyRound (s * 1000) % 60000 / 1000)
      ++ mk ++ zeroPadInt 3 (pyRound (s * 1000) % 1000)) ∧
    format_timestamp 0 false (".") = ("00:00.000") ∧
    format_timestamp (7323 / 2) true (".") = ("01:01:01.500") := by
  refine ⟨format_timestamp_normal s aih mk h, ?_, ?_⟩
  · have h0 : (0 : ℚ) * 1000 = (((0 : ℤ)) : ℚ) := by norm_num
    simp only [format_timestamp, h0, pyRound_intCast]
    decide
  · have h0 : (7323 / 2 : ℚ) * 1000 = (((3661500 : ℤ)) : ℚ) := by norm_num
    simp only [format_timestamp, h0, pyRound_intCast]
    decide

/-- Witness for C1 at the concrete input 3661.5 seconds. -/
theorem C1_format_timestamp_witness :
    (0 : ℚ) ≤ 7323 / 2 ∧ format_timestamp (7323 / 2) true (".") = ("01:01:01.500") :=
  ⟨by norm_num, (C1_format_timestamp (7323 / 2) true (".") (by norm_num)).2.2⟩

/-! ## Shape of the formatted timestamp (C2) -/

theorem natDigits_one_digit {n : ℕ} (h : n < 10) :
    natDigits n = [Nat.digitChar n] := by
  rw [natDigits_eq, if_pos h]

theorem digitChar_zero : Nat.digitChar 0 = '0' := rfl

theorem natDigits_two_digit {n : ℕ} (h1 : 10 ≤ n) (h2 : n < 100) :
    natDigits n = [Nat.digitChar (n / 10), Nat.digitChar (n % 10)] := by
  rw [natDigits_eq, if_neg (by omega), natDigits_one_digit (by omega)]
  rfl

theorem zeroPadNat_two_data {n : ℕ} (h : n < 100) :
    (zeroPadNat 2 n).data = [Nat.digitChar (n / 10), Nat.digitChar (n % 10)] := by
  by_cases h1 : n < 10
  · have hd : natDigits n = [Nat.digitChar n] := natDigits_one_digit h1
    have hq : n / 10 = 0 := by omega
    have hr : n % 10 = n := by omega
    simp [zeroPadNat, hd, hq, hr, List.replicate, digitChar_zero]
  · have hd := natDigits_two_digit (by omega) h
    simp [zeroPadNat, hd]

theorem zeroPadNat_three_data {n : ℕ} (h : n < 1000) :
    (zeroPadNat 3 n).data =
      [Nat.digitChar (n / 100), Nat.digitChar (n / 10 % 10), Nat.digitChar (n % 10)] := by
  by_cases h1 : n < 10
  · have hd : natDigits n = [Nat.digitChar n] := natDigits_one_digit h1
    have hq : n / 100 = 0 := by omega
    have hq2 : n / 10 % 10 = 0 := by omega
    have hr : n % 10 = n := by omega
    simp [zeroPadNat, hd, hq, hq2, hr, List.replicate, digitChar_zero]
  · by_cases h2 : n < 100
    · have hd := natDigits_two_digit (by omega) h2
      have hq : n / 100 = 0 := by omega
      have hq2 : n / 10 % 10 = n / 10 := by omega
      simp [zeroPadNat, hd, hq, hq2, List.replicate, digitChar_zero]
    · have hta : 10 ≤ n / 10 := by omega
      have htb : n / 10 < 100 := by omega
      have hd : natDigits n = natDigits (n / 10) ++ [Nat.digitChar (n % 10)] := by
        rw [natDigits_eq, if_neg (by omega)]
      rw [natDigits_two_digit hta htb] at hd
      have hq : n / 10 / 10 = n / 100 := by omega
      rw [hq] at hd
      simp [zeroPadNat, hd]

theorem zeroPadInt_two_data {n : ℤ} (h0 : 0 ≤ n) (h : n < 100) :
    (zeroPadInt 2 n).data =
      [Nat.digitChar (n.toNat / 10), Nat.digitChar (n.toNat % 10)] := by
  rw [zeroPadInt, if_neg (by omega)]
  exact zeroPadNat_two_data (by omega)

theorem zeroPadInt_three_data {n : ℤ} (h0 : 0 ≤ n) (h : n < 1000) :
    (zeroPadInt 3 n).data =
      [Nat.digitChar (n.toNat / 100), Nat.digitChar (n.toNat / 10 % 10),
        Nat.digitChar (n.toNat % 10)] := by
  rw [zeroPadInt, if_neg (by omega)]
  exact zeroPadNat_three_data (by omega)

/-- C2 counterexample: at 360000 seconds (100 hours) the hour field takes
three characters, so the output is 13 characters long instead of the
12 characters of the fixed pattern `HH:MM:SS.mmm`. -/
theorem C2_counterexample :
    format_timestamp 360000 false (".") = ("100:00:00.000") ∧
    ("100:00:00.000" : String).length ≠ ("00:00:00.000" : String).length := by
  constructor
  · have h0 : (360000 : ℚ) * 1000 = (((360000000 : ℤ)) : ℚ) := by norm_num
    simp only [format_timestamp, h0, pyRound_intCast]
    decide
  · decide

/-- C2 (amended): for all `t ≥ 0` with less than 100 hours the output
matches the fixed pattern — two-digit fields with `:` separators and the
decimal marker at fixed positions, with the hour field present exactly when
`always_include_hours` is set or the hour is nonzero.  (For 100 hours or
more the hour field widens; hours are never truncated, but the pattern is
not fixed-width, see the counterexample.) -/
theorem C2_fixed_pattern (s : ℚ) (aih : Bool) (mk : String) (h : 0 ≤ s)
    (hub : pyRound (s * 1000) < 360000000) :
    (aih = false ∧ pyRound (s * 1000) < 3600000 →
      ∃ a b c d x y z : Char, (format_timestamp s aih mk).data =
        [a, b, ':', c, d] ++ mk.data ++ [x, y, z]) ∧
    (aih = true ∨ 3600000 ≤ pyRound (s * 1000) →
      ∃ a b c d e f x y z : Char, (format_timestamp s aih mk).data =
        [a, b, ':', c, d, ':', e, f] ++ mk.data ++ [x, y, z]) := by
  have hms : 0 ≤ pyRound (s * 1000) := pyRound_nonneg (by positivity)
  rw [format_timestamp_normal s aih mk h]
  set ms := pyRound (s * 1000) with hdef
  have hmin : ms % 3600000 / 60000 < 100 := by omega
  have hsec : ms % 60000 / 1000 < 100 := by omega
  have hmsec : ms % 1000 < 1000 := by omega
  have dmin := zeroPadInt_two_data (by omega) hmin
  have dsec := zeroPadInt_two_data (by omega) hsec
  have dmsec := zeroPadInt_three_data (by omega) hmsec
  constructor
  · rintro ⟨ha, hlt⟩
    have hz : ms / 3600000 = 0 := by omega
    rw [if_pos ⟨hz, ha⟩]
    refine ⟨Nat.digitChar ((ms % 3600000 / 60000).toNat / 10),
      Nat.digitChar ((ms % 3600000 / 60000).toNat % 10),
      Nat.digitChar ((ms % 60000 / 1000).toNat / 10),
      Nat.digitChar ((ms % 60000 / 1000).toNat % 10),
      Nat.digitChar ((ms % 1000).toNat / 100),
      Nat.digitChar ((ms % 1000).toNat / 10 % 10),
      Nat.digitChar ((ms % 1000).toNat % 10), ?_⟩
    simp [dmin, dsec, dmsec]
  · intro hor
    have hnz : ¬(ms / 3600000 = 0 ∧ aih = false) := by
      rcases hor with h1 | h1
      · rintro ⟨_, hf⟩
        rw [h1] at hf
        cases hf
      · have : 1 ≤ ms / 3600000 := by omega
        rintro ⟨hz, _⟩
        omega
    rw [if_neg hnz]
    have hhr : ms / 3600000 < 100 := by omega
    have dhr := zeroPadInt_two_data (show (0 : ℤ) ≤ ms / 3600000 by omega) hhr
    refine ⟨Nat.digitChar ((ms / 3600000).toNat / 10),
      Nat.digitChar ((ms / 3600000).toNat % 10),
      Nat.digitChar ((ms % 3600000 / 60000).toNat / 10),
      Nat.digitChar ((ms % 3600000 / 60000).toNat % 10),
      Nat.digitChar ((ms % 60000 / 1000).toNat / 10),
      Nat.digitChar ((ms % 60000 / 1000).toNat % 10),
      Nat.digitChar ((ms % 1000).toNat / 100),
      Nat.digitChar ((ms % 1000).toNat / 10 % 10),
      Nat.digitChar ((ms % 1000).toNat % 10), ?_⟩
    simp [dhr, dmin, dsec, dmsec]

/-! ## Python string primitives used by the renderers -/

/-- Python `str.isspace` on a single character (the whitespace set stripped
by `str.strip()`). -/
def pyIsSpace (c : Char) : Bool :=
  [' ', '\t', '\n', '\r', '\x0b', '\x0c', '\x1c', '\x1d', '\x1e', '\x1f',
    '\x85', '\xa0', ' ', ' ', ' ', ' ', ' ',
    ' ', ' ', ' ', ' ', ' ', ' ', ' ',
    ' ', ' ', ' ', ' ', '　'].contains c

/-- Python `str.strip()`: drop leading and trailing whitespace. -/
def pyStrip (l : List Char) : List Char :=
  ((l.dropWhile pyIsSpace).reverse.dropWhile pyIsSpace).reverse

/-- Python `str.replace('-->', '->')`: one left-to-right pass replacing
non-overlapping occurrences of `-->` by `->`. -/
def fixArrow : List Char → List Char
  | [] => []
  | [c] => [c]
  | [c, d] => [c, d]
  | c :: d :: e :: rest =>
    if c = '-' ∧ d = '-' ∧ e = '>' then '-' :: '>' :: fixArrow rest
    else c :: fixArrow (d :: e :: rest)

/-- Python `str.replace("\t", " ")`: each tab becomes a single space. -/
def tabToSpace : List Char → List Char
  | [] => []
  | c :: rest => (if c = '\t' then ' ' else c) :: tabToSpace rest

/-! ## Segments and the writers (utils.py lines 44–116) -/

/-- One transcription segment: start and end times in seconds and the
segment text (the attributes the writers read). -/
structure Segment where
  start : ℚ
  end_ : ℚ
  text : String

/-- The segment text as rendered by `WriteVTT.write_result` and
`WriteSRT.write_result`: `segment.text.strip().replace('-->', '->')`. -/
def renderedSegText (text : String) : List Char := fixArrow (pyStrip text.data)

/-- Embedding of `WriteTXT.write_result`: one stripped segment text per
line. -/
def writeTXT (result : List Segment) : String :=
  String.join (result.map fun s => String.mk (pyStrip s.text.data) ++ ("\n"))

/-- Embedding of `WriteVTT.write_result`: the `WEBVTT` header, then one
block per segment (`print` appends the extra newline of each block). -/
def writeVTT (result : List Segment) : String :=
  ("WEBVTT\n\n") ++ String.join (result.map fun s =>
    format_timestamp s.start false (".") ++ (" --> ") ++ format_timestamp s.end_ false (".")
      ++ ("\n") ++ String.mk (renderedSegText s.text) ++ ("\n\n"))

/-- One SubRip block: 1-based index, timestamps with hours always shown and
a comma decimal marker, then the rendered text. -/
def srtBlock (i : ℕ) (s : Segment) : String :=
  String.mk (natDigits i) ++ ("\n")
    ++ format_timestamp s.start true (",") ++ (" --> ")
    ++ format_timestamp s.end_ true (",") ++ ("\n")
    ++ String.mk (renderedSegText s.text) ++ ("\n\n")

def writeSRTAux : ℕ → List Segment → List String
  | _, [] => []
  | i, s :: rest => srtBlock i s :: writeSRTAux (i + 1) rest

/-- Embedding of `WriteSRT.write_result` (`enumerate(..., start=1)`). -/
def writeSRT (result : List Segment) : String := String.join (writeSRTAux 1 result)

/-! ## C3: the `-->` rewriting of the VTT/SRT renderers -/

theorem fixArrow_head : ∀ (l : List Char), (fixArrow l).head? = l.head?
  | [] => rfl
  | [_] => rfl
  | [_, _] => rfl
  | c :: d :: e :: rest => by
    show (if c = '-' ∧ d = '-' ∧ e = '>' then '-' :: '>' :: fixArrow rest
      else c :: fixArrow (d :: e :: rest)).head? = _
    by_cases h : c = '-' ∧ d = '-' ∧ e = '>'
    · simp [h, h.1]
    · simp [h]

/-- Key property of the single-pass replacement: if the input contains no
`--->` then the output contains no `-->`. -/
theorem fixArrow_no_arrow : ∀ (l : List Char),
    ¬ (['-', '-', '-', '>'] <:+: l) → ¬ (['-', '-', '>'] <:+: fixArrow l) := by
  intro l
  induction l using fixArrow.induct with
  | case1 =>
    intro _ h3
    simp [fixArrow] at h3
  | case2 c =>
    intro _ h3
    have := h3.length_le
    simp [fixArrow] at this
  | case3 c d =>
    intro _ h3
    have := h3.length_le
    simp [fixArrow] at this
  | case4 c d e rest hcond ih =>
    obtain ⟨rfl, rfl, rfl⟩ := hcond
    intro h4 h3
    have hfa : fixArrow ('-' :: '-' :: '>' :: rest) = '-' :: '>' :: fixArrow rest := by
      show (if _ then _ else _) = _
      rw [if_pos ⟨rfl, rfl, rfl⟩]
    rw [hfa] at h3
    have hrest : ¬ (['-', '-', '-', '>'] <:+: rest) :=
      fun hh => h4 (List.infix_cons (List.infix_cons (List.infix_cons hh)))
    rcases List.infix_cons_iff.mp h3 with hp | h3
    · rcases List.cons_prefix_cons.mp hp with ⟨_, hp⟩
      rcases List.cons_prefix_cons.mp hp with ⟨hbad, _⟩
      exact absurd hbad (by decide)
    · rcases List.infix_cons_iff.mp h3 with hp | h3
      · rcases List.cons_prefix_cons.mp hp with ⟨hbad, _⟩
        exact absurd hbad (by decide)
      · exact ih hrest h3
  | case5 c d e rest hcond ih =>
    intro h4 h3
    have hfa : fixArrow (c :: d :: e :: rest) = c :: fixArrow (d :: e :: rest) := by
      show (if _ then _ else _) = _
      rw [if_neg hcond]
    rw [hfa] at h3
    have htail : ¬ (['-', '-', '-', '>'] <:+: d :: e :: rest) :=
      fun hh => h4 (List.infix_cons hh)
    rcases List.infix_cons_iff.mp h3 with hpre | hinf
    · -- `-->` would be a prefix of `c :: fixArrow (d :: e :: rest)`
      obtain ⟨hc, hpre2⟩ := List.cons_prefix_cons.mp hpre
      obtain ⟨t1, ht1⟩ := hpre2
      have hd : d = '-' := by
        have h1 : (fixArrow (d :: e :: rest)).head? = some '-' := by
          rw [← ht1]
          rfl
        rw [fixArrow_head] at h1
        simpa using h1
      subst hd
      -- now look at the second character of `fixArrow ('-' :: e :: rest)`
      rcases rest with _ | ⟨z, t⟩
      · -- `fixArrow ['-', e] = ['-', e]`
        have he : e = '>' := by
          have h2 : (['-', '>'] ++ t1 : List Char) = ['-', e] := ht1
          simp only [List.cons_append, List.nil_append, List.cons.injEq] at h2
          exact h2.2.1.symm
        exact hcond ⟨hc.symm, rfl, he⟩
      · by_cases hb : e = '-' ∧ z = '>'
        · -- the tail starts with `-->`: the input contained `--->`
          exact h4 ⟨[], t, by simp [hb.1, hb.2, ← hc]⟩
        · have hfb : fixArrow ('-' :: e :: z :: t) = '-' :: fixArrow (e :: z :: t) := by
            show (if _ then _ else _) = _
            rw [if_neg (by rintro ⟨_, h1, h2⟩; exact hb ⟨h1, h2⟩)]
          rw [hfb] at ht1
          have h2 : fixArrow (e :: z :: t) = '>' :: t1 := by
            have h3t := congrArg List.tail ht1
            simpa using h3t.symm
          have he : e = '>' := by
            have h1 : (fixArrow (e :: z :: t)).head? = some '>' := by
              rw [h2]
              rfl
            rw [fixArrow_head] at h1
            simpa using h1
          exact hcond ⟨hc.symm, rfl, he⟩
    · exact ih htail hinf

/-- C3 counterexample: the claim fails on the input text `"--->"` — the
single replacement pass turns it into `"-->"`, so the WebVTT renderer does
emit a literal `-->` inside the rendered segment text. -/
theorem C3_counterexample :
    renderedSegText ("--->") = ("-->").data ∧
    (['-', '-', '>'] <:+: renderedSegText ("--->")) ∧
    writeVTT [⟨0, 1, ("--->")⟩] =
      ("WEBVTT\n\n00:00.000 --> 00:01.000\n-->\n\n") := by
  refine ⟨by decide, by decide, ?_⟩
  have e0 : format_timestamp 0 false (".") = ("00:00.000") := by
    have h0 : (0 : ℚ) * 1000 = (((0 : ℤ)) : ℚ) := by norm_num
    simp only [format_timestamp, h0, pyRound_intCast]
    decide
  have e1 : format_timestamp 1 false (".") = ("00:01.000") := by
    have h1 : (1 : ℚ) * 1000 = (((1000 : ℤ)) : ℚ) := by norm_num
    simp only [format_timestamp, h1, pyRound_intCast]
    decide
  simp only [writeVTT, List.map, e0, e1]
  decide

/-- C3 (amended): the renderers apply one left-to-right pass replacing
non-overlapping occurrences of `-->` in the stripped text by `->`; the
rendered segment text therefore contains no `-->` whenever the stripped
text does not contain `--->` (inputs such as `--->` can still produce a
literal `-->`, see the counterexample). -/
theorem C3_arrow_rewrite (t : String)
    (h : ¬ (['-', '-', '-', '>'] <:+: pyStrip t.data)) :
    ¬ (['-', '-', '>'] <:+: renderedSegText t) ∧
    (∀ s : Segment, writeVTT [s] =
      ("WEBVTT\n\n") ++ format_timestamp s.start false (".") ++ (" --> ")
        ++ format_timestamp s.end_ false (".") ++ ("\n")
        ++ String.mk (renderedSegText s.text) ++ ("\n\n")) ∧
    (∀ s : Segment, writeSRT [s] =
      ("1\n") ++ format_timestamp s.start true (",") ++ (" --> ")
        ++ format_timestamp s.end_ true (",") ++ ("\n")
        ++ String.mk (renderedSegText s.text) ++ ("\n\n")) := by
  refine ⟨fixArrow_no_arrow _ h, fun s => ?_, fun s => ?_⟩
  · simp only [writeVTT, List.map, String.join, List.foldl]
    rw [String.ext_iff]
    simp
  · have h1 : String.mk (natDigits 1) = ("1") := by decide
    simp only [writeSRT, writeSRTAux, srtBlock, String.join, List.foldl, h1]
    rw [String.ext_iff]
    simp

/-! ## C7: the TSV renderer (utils.py lines 94–110) -/

/-- One line of `WriteTSV.write_result`: integer milliseconds of start and
end separated by tabs, then the stripped text with tabs replaced by
spaces. -/
def tsvLine (s : Segment) : String :=
  String.mk (intRender (pyRound (1000 * s.start))) ++ ("\t")
    ++ String.mk (intRender (pyRound (1000 * s.end_))) ++ ("\t")
    ++ String.mk (tabToSpace (pyStrip s.text.data)) ++ ("\n")

/-- Embedding of `WriteTSV.write_result`: the header line then one line per
segment. -/
def writeTSV (result : List Segment) : String :=
  ("start\tend\ttext\n") ++ String.join (result.map tsvLine)

theorem tabToSpace_no_tab (l : List Char) : ¬ ('\t' ∈ tabToSpace l) := by
  induction l with
  | nil => simp [tabToSpace]
  | cons c rest ih =>
    simp only [tabToSpace, List.mem_cons]
    rintro (h | h)
    · by_cases hc : c = '\t'
      · rw [if_pos hc] at h
        exact absurd h (by decide)
      · rw [if_neg hc] at h
        exact hc h.symm
    · exact ih h

/-- C7: the TSV renderer emits the header line `start\tend\ttext`, then for
every segment one line of `round(1000*start)` and `round(1000*end)` as
tab-separated integers — non-negative whenever the segment times are — and
the stripped text with every tab replaced by a space, so no tab characters
remain inside the text field. -/
theorem C7_writeTSV (result : List Segment)
    (h : ∀ s ∈ result, 0 ≤ s.start ∧ 0 ≤ s.end_) :
    writeTSV result = ("start\tend\ttext\n") ++ String.join (result.map tsvLine) ∧
    (("start\tend\ttext\n").data <+: (writeTSV result).data) ∧
    (∀ s ∈ result, 0 ≤ pyRound (1000 * s.start) ∧ 0 ≤ pyRound (1000 * s.end_)) ∧
    (∀ s ∈ result, ¬ ('\t' ∈ tabToSpace (pyStrip s.text.data))) := by
  refine ⟨rfl, ⟨(String.join (result.map tsvLine)).data, by simp [writeTSV]⟩, ?_, ?_⟩
  · intro s hs
    obtain ⟨h1, h2⟩ := h s hs
    exact ⟨pyRound_nonneg (by positivity), pyRound_nonneg (by positivity)⟩
  · intro s _
    exact tabToSpace_no_tab _

/-- Witness for C7 on a single segment with a tab inside its text. -/
theorem C7_writeTSV_witness :
    (∀ s ∈ [(⟨1 / 2, 2, ("a\tb")⟩ : Segment)], 0 ≤ s.start ∧ 0 ≤ s.end_) ∧
    (∀ s ∈ [(⟨1 / 2, 2, ("a\tb")⟩ : Segment)],
      0 ≤ pyRound (1000 * s.start) ∧ 0 ≤ pyRound (1000 * s.end_)) ∧
    (∀ s ∈ [(⟨1 / 2, 2, ("a\tb")⟩ : Segment)],
      ¬ ('\t' ∈ tabToSpace (pyStrip s.text.data))) := by
  have hh : ∀ s ∈ [(⟨1 / 2, 2, ("a\tb")⟩ : Segment)], 0 ≤ s.start ∧ 0 ≤ s.end_ := by
    intro s hs
    simp only [List.mem_singleton] at hs
    subst hs
    exact ⟨by norm_num, by norm_num⟩
  exact ⟨hh, (C7_writeTSV _ hh).2.2.1, (C7_writeTSV _ hh).2.2.2⟩

/-- Witness for C3 (amended) at the concrete text `"a --> b"`. -/
theorem C3_arrow_rewrite_witness :
    (¬ (['-', '-', '-', '>'] <:+: pyStrip ("a --> b").data)) ∧
    ¬ (['-', '-', '>'] <:+: renderedSegText ("a --> b")) :=
  ⟨by decide, (C3_arrow_rewrite ("a --> b") (by decide)).1⟩

/-- Witness for C2 at the concrete input 3661.5 seconds (hours shown). -/
theorem C2_fixed_pattern_witness :
    ((0 : ℚ) ≤ 7323 / 2 ∧ pyRound ((7323 / 2 : ℚ) * 1000) < 360000000) ∧
    (∃ a b c d e f x y z : Char, (format_timestamp (7323 / 2) false (".")).data =
        [a, b, ':', c, d, ':', e, f] ++ ("." : String).data ++ [x, y, z]) := by
  have h0 : (7323 / 2 : ℚ) * 1000 = (((3661500 : ℤ)) : ℚ) := by norm_num
  have hr : pyRound ((7323 / 2 : ℚ) * 1000) = 3661500 := by rw [h0, pyRound_intCast]
  refine ⟨⟨by norm_num, by rw [hr]; norm_num⟩, ?_⟩
  exact (C2_fixed_pattern (7323 / 2) false (".") (by norm_num)
    (by rw [hr]; norm_num)).2 (Or.inr (by rw [hr]; norm_num))

/-! ## Metadata extraction (metadata.py) -/

/-- Python `bytes.decode('utf-8')` (strict): decode a byte list as UTF-8,
rejecting malformed sequences, overlong encodings and surrogates. -/
def utf8Decode : List ℕ → Option (List Char)
  | [] => some []
  | b :: rest =>
    if b < 0x80 then
      (utf8Decode rest).map (fun cs => Char.ofNat b :: cs)
    else if b < 0xC2 then none
    else if b ≤ 0xDF then
      match rest with
      | b2 :: rest2 =>
        if 0x80 ≤ b2 ∧ b2 ≤ 0xBF then
          (utf8Decode rest2).map (fun cs => Char.ofNat ((b - 0xC0) * 64 + (b2 - 0x80)) :: cs)
        else none
      | [] => none
    else if b ≤ 0xEF then
      match rest with
      | b2 :: b3 :: rest2 =>
        if (0x80 ≤ b2 ∧ b2 ≤ 0xBF) ∧ (0x80 ≤ b3 ∧ b3 ≤ 0xBF) then
          if 0x800 ≤ (b - 0xE0) * 4096 + (b2 - 0x80) * 64 + (b3 - 0x80) ∧
              ¬(0xD800 ≤ (b - 0xE0) * 4096 + (b2 - 0x80) * 64 + (b3 - 0x80) ∧
                (b - 0xE0) * 4096 + (b2 - 0x80) * 64 + (b3 - 0x80) ≤ 0xDFFF) then
            (utf8Decode rest2).map
              (fun cs => Char.ofNat ((b - 0xE0) * 4096 + (b2 - 0x80) * 64 + (b3 - 0x80)) :: cs)
          else none
        else none
      | _ => none
    else if b ≤ 0xF4 then
      match rest with
      | b2 :: b3 :: b4 :: rest2 =>
        if (0x80 ≤ b2 ∧ b2 ≤ 0xBF) ∧ (0x80 ≤ b3 ∧ b3 ≤ 0xBF) ∧ (0x80 ≤ b4 ∧ b4 ≤ 0xBF) then
          if 0x10000 ≤ (b - 0xF0) * 262144 + (b2 - 0x80) * 4096 + (b3 - 0x80) * 64 + (b4 - 0x80) ∧
              (b - 0xF0) * 262144 + (b2 - 0x80) * 4096 + (b3 - 0x80) * 64 + (b4 - 0x80) ≤ 0x10FFFF then
            (utf8Decode rest2).map
              (fun cs => Char.ofNat
                ((b - 0xF0) * 262144 + (b2 - 0x80) * 4096 + (b3 - 0x80) * 64 + (b4 - 0x80)) :: cs)
          else none
        else none
      | _ => none
    else none

/-- The UTF-8 bytes of an ASCII string (used for concrete test inputs). -/
def asciiBytes (s : String) : List ℕ := s.data.map Char.toNat

/-- Numeric value of a decimal digit character. -/
def charDigit (c : Char) : ℕ := c.toNat - 48

/-- A regex alternative matching two characters. -/
def altTwo (p : Char → Char → Bool) (v : Char → Char → ℕ) :
    List Char → List (ℕ × List Char)
  | a :: b :: rest => if p a b then [(v a b, rest)] else []
  | _ => []

/-- A regex alternative matching one character. -/
def altOne (p : Char → Bool) (v : Char → ℕ) : List Char → List (ℕ × List Char)
  | a :: rest => if p a then [(v a, rest)] else []
  | _ => []

/-- CPython `_strptime` directive `%Y`: exactly four digits. -/
def compY : List Char → List (ℕ × List Char)
  | a :: b :: c :: d :: rest =>
    if a.isDigit ∧ b.isDigit ∧ c.isDigit ∧ d.isDigit then
      [(charDigit a * 1000 + charDigit b * 100 + charDigit c * 10 + charDigit d, rest)]
    else []
  | _ => []

/-- CPython `_strptime` directive `%m`: `1[0-2]|0[1-9]|[1-9]` (one or two
digits), alternatives in preference order. -/
def compm (s : List Char) : List (ℕ × List Char) :=
  altTwo (fun a b => decide (a = '1' ∧ '0' ≤ b ∧ b ≤ '2')) (fun _ b => 10 + charDigit b) s
    ++ altTwo (fun a b => decide (a = '0' ∧ '1' ≤ b ∧ b ≤ '9')) (fun _ b => charDigit b) s
    ++ altOne (fun a => decide ('1' ≤ a ∧ a ≤ '9')) charDigit s

/-- CPython `_strptime` directive `%d`:
`3[0-1]|[1-2]\d|0[1-9]|[1-9]| [1-9]` (the last alternative is a space
followed by a digit). -/
def compd (s : List Char) : List (ℕ × List Char) :=
  altTwo (fun a b => decide (a = '3' ∧ (b = '0' ∨ b = '1'))) (fun _ b => 30 + charDigit b) s
    ++ altTwo (fun a b => decide ((a = '1' ∨ a = '2') ∧ b.isDigit = true))
      (fun a b => charDigit a * 10 + charDigit b) s
    ++ altTwo (fun a b => decide (a = '0' ∧ '1' ≤ b ∧ b ≤ '9')) (fun _ b => charDigit b) s
    ++ altOne (fun a => decide ('1' ≤ a ∧ a ≤ '9')) charDigit s
    ++ altTwo (fun a b => decide (a = ' ' ∧ '1' ≤ b ∧ b ≤ '9')) (fun _ b => charDigit b) s

/-- CPython `_strptime` directive `%H`: `2[0-3]|[0-1]\d|\d`. -/
def compH (s : List Char) : List (ℕ × List Char) :=
  altTwo (fun a b => decide (a = '2' ∧ '0' ≤ b ∧ b ≤ '3')) (fun _ b => 20 + charDigit b) s
    ++ altTwo (fun a b => decide ((a = '0' ∨ a = '1') ∧ b.isDigit = true))
      (fun a b => charDigit a * 10 + charDigit b) s
    ++ altOne (fun a => a.isDigit) charDigit s

/-- CPython `_strptime` directive `%M`: `[0-5]\d|\d`. -/
def compM (s : List Char) : List (ℕ × List Char) :=
  altTwo (fun a b => decide ('0' ≤ a ∧ a ≤ '5' ∧ b.isDigit = true))
      (fun a b => charDigit a * 10 + charDigit b) s
    ++ altOne (fun a => a.isDigit) charDigit s

/-- CPython `_strptime` directive `%S`: `6[0-1]|[0-5]\d|\d` (leap seconds
allowed). -/
def compS (s : List Char) : List (ℕ × List Char) :=
  altTwo (fun a b => decide (a = '6' ∧ (b = '0' ∨ b = '1'))) (fun _ b => 60 + charDigit b) s
    ++ altTwo (fun a b => decide ('0' ≤ a ∧ a ≤ '5' ∧ b.isDigit = true))
      (fun a b => charDigit a * 10 + charDigit b) s
    ++ altOne (fun a => a.isDigit) charDigit s

/-- Backtracking matcher for a sequence of regex components, with the
leftmost-preference semantics of Python `re`: each component commits to its
first alternative that lets the rest of the pattern match; the match need
not reach the end of the input. -/
def matchComps : List (List Char → List (ℕ × List Char)) → List Char →
    Option (List ℕ × List Char)
  | [], s => some ([], s)
  | c :: cs, s =>
    (c s).findSome? (fun vr => (matchComps cs vr.2).map (fun p => (vr.1 :: p.1, p.2)))

/-- CPython `time.strptime(datestring, "%Y%m%d%H%M%S")`: match the six
directives in order and require the whole string to be consumed
("unconverted data remains" otherwise). -/
def strptimeYmdHMS (l : List Char) : Option (ℕ × ℕ × ℕ × ℕ × ℕ × ℕ) :=
  match matchComps [compY, compm, compd, compH, compM, compS] l with
  | some ([y, mo, d, h, mi, s], rest) => if rest = [] then some (y, mo, d, h, mi, s) else none
  | _ => none

/-- A local-time datetime as produced by `to_date`. -/
structure PdfDateTime where
  year : ℕ
  month : ℕ
  day : ℕ
  hour : ℕ
  minute : ℕ
  second : ℕ
deriving DecidableEq

def isLeap (y : ℕ) : Bool := decide ((y % 4 = 0 ∧ y % 100 ≠ 0) ∨ y % 400 = 0)

def daysInMonth (y m : ℕ) : ℕ :=
  if m = 2 then (if isLeap y then 29 else 28)
  else if m = 4 ∨ m = 6 ∨ m = 9 ∨ m = 11 then 30
  else 31

/-- Normalization performed by `mktime` for leap-second inputs (`%S`
accepts 60 and 61): carry overflowing seconds into the larger fields. -/
def normalizeTime (dt : PdfDateTime) : PdfDateTime :=
  let s := dt.second % 60
  let mi1 := dt.minute + dt.second / 60
  let mi := mi1 % 60
  let h1 := dt.hour + mi1 / 60
  let h := h1 % 24
  let d1 := dt.day + h1 / 24
  if daysInMonth dt.year dt.month < d1 then
    if dt.month = 12 then ⟨dt.year + 1, 1, d1 - daysInMonth dt.year dt.month, h, mi, s⟩
    else ⟨dt.year, dt.month + 1, d1 - daysInMonth dt.year dt.month, h, mi, s⟩
  else ⟨dt.year, dt.month, d1, h, mi, s⟩

/-- Embedding of `to_date` from `metadata.py`: slice `date_str[2:-7]`,
parse with `strptime("%Y%m%d%H%M%S")`, and send the result through
`datetime.datetime.fromtimestamp(mktime(ts))`.  The strptime step fails
(returning `none`, the code's `except ValueError`) on a failed regex match,
on year 0 and on a day that overflows the month, exactly as CPython does
via `datetime_date(year, month, day)`.  The `mktime`/`fromtimestamp` round
trip through the local epoch is modelled as the identity on in-range values
(a fixed local timezone without transitions, per the spec's non-goal of
timezone handling), with leap seconds normalized and the `datetime` year
range enforced. -/
def to_date (date_str : List Char) : Option PdfDateTime :=
  let datestring := (date_str.drop 2).take (date_str.length - 9)
  match strptimeYmdHMS datestring with
  | none => none
  | some (y, mo, d, h, mi, s) =>
    if y = 0 then none
    else if daysInMonth y mo < d then none
    else
      let ndt := normalizeTime ⟨y, mo, d, h, mi, s⟩
      if 9999 < ndt.year then none else some ndt

/-- Python `datetime.isoformat()` for a whole-second datetime. -/
def isoformat (dt : PdfDateTime) : String :=
  zeroPadNat 4 dt.year ++ ("-") ++ zeroPadNat 2 dt.month ++ ("-") ++ zeroPadNat 2 dt.day
    ++ ("T") ++ zeroPadNat 2 dt.hour ++ (":") ++ zeroPadNat 2 dt.minute
    ++ (":") ++ zeroPadNat 2 dt.second

/-- The metadata record built by `get_document_metadata`: the mandatory
`properties.attrs.pages` value and the five optional keys (absent = `none`). -/
structure MetadataRecord where
  pages : ℕ
  authors : Option (List String)
  title : Option String
  keywords : Option (List String)
  createdAt : Option String
  updatedAt : Option String
deriving DecidableEq

/-- Split on a separator character and strip each part (the
`[x.strip() for x in s.split(sep)]` idiom). -/
def stripParts (sep : Char) (l : List Char) : List String :=
  (l.splitOn sep).map (fun p => String.mk (pyStrip p))

/-- One iteration of the key loop of `get_document_metadata`: the
`if`/`elif` chain over the property key, each branch best-effort. -/
def processKey (m : MetadataRecord) (key : String) (value : List ℕ) : MetadataRecord :=
  if key = ("Author") then
    match utf8Decode value with
    | some cs =>
      if 0 < (pyStrip cs).length then { m with authors := some (stripParts ';' (pyStrip cs)) }
      else m
    | none => m
  else if key = ("Title") then
    match utf8Decode value with
    | some cs =>
      if 0 < (pyStrip cs).length then { m with title := some (String.mk (pyStrip cs)) }
      else m
    | none => m
  else if key = ("Keywords") then
    match utf8Decode value with
    | some cs =>
      if 0 < (pyStrip cs).length then { m with keywords := some (stripParts ',' (pyStrip cs)) }
      else m
    | none => m
  else if key = ("CreationDate") then
    match utf8Decode value with
    | some cs =>
      match to_date cs with
      | some dt => { m with createdAt := some (isoformat dt) }
      | none => m
    | none => m
  else if key = ("ModDate") then
    match utf8Decode value with
    | some cs =>
      match to_date cs with
      | some dt => { m with updatedAt := some (isoformat dt) }
      | none => m
    | none => m
  else m

/-- Embedding of `get_document_metadata`: start from the base record with
the page count, and if `doc.info` is non-empty walk the items of its first
dictionary. -/
def get_document_metadata (info : List (List (String × List ℕ))) (pages : ℕ) :
    MetadataRecord :=
  match info with
  | [] => ⟨pages, none, none, none, none, none⟩
  | first :: _ =>
    first.foldl (fun m kv => processKey m kv.1 kv.2)
      ⟨pages, none, none, none, none, none⟩

/-! ## C8 / C9 / C4: the metadata record -/

/-- C8: on an absent (`[]`) or empty (`[[]]`) property map the result is
exactly the base record: the page count and no optional keys. -/
theorem C8_empty_metadata (pages : ℕ) :
    get_document_metadata [] pages = ⟨pages, none, none, none, none, none⟩ ∧
    get_document_metadata [[]] pages = ⟨pages, none, none, none, none, none⟩ :=
  ⟨rfl, rfl⟩

/-- C9: a `Keywords` value that decodes and is non-empty after stripping is
split on `,` with each part stripped; `"a, b ,c"` gives `["a", "b", "c"]`. -/
theorem C9_keywords_split (v : List ℕ) (cs : List Char) (pages : ℕ)
    (h : utf8Decode v = some cs ∧ pyStrip cs ≠ []) :
    (get_document_metadata [[(("Keywords"), v)]] pages).keywords =
      some (stripParts ',' (pyStrip cs)) ∧
    (get_document_metadata [[(("Keywords"), asciiBytes ("a, b ,c"))]] pages).keywords =
      some [("a"), ("b"), ("c")] := by
  obtain ⟨hdec, hne⟩ := h
  constructor
  · show (processKey ⟨pages, none, none, none, none, none⟩ ("Keywords") v).keywords = _
    have hlen : 0 < (pyStrip cs).length := List.length_pos.mpr hne
    rw [processKey, if_neg (by decide), if_neg (by decide), if_pos rfl, hdec]
    simp only [if_pos hlen]
  · have hconc : (get_document_metadata [[(("Keywords"), asciiBytes ("a, b ,c"))]] pages) =
        ⟨pages, none, none, some [("a"), ("b"), ("c")], none, none⟩ := by
      have h1 : get_document_metadata [[(("Keywords"), asciiBytes ("a, b ,c"))]] pages =
          processKey ⟨pages, none, none, none, none, none⟩ ("Keywords")
            (asciiBytes ("a, b ,c")) := rfl
      have h2 : utf8Decode (asciiBytes ("a, b ,c")) = some (("a, b ,c").data) := by decide
      have h3 : 0 < (pyStrip (("a, b ,c").data)).length := by decide
      have h4 : stripParts ',' (pyStrip (("a, b ,c").data)) = [("a"), ("b"), ("c")] := by
        decide
      rw [h1, processKey, if_neg (by decide), if_neg (by decide), if_pos rfl, h2]
      simp only [if_pos h3, h4]
    rw [hconc]

/-- Witness for C9 with the keywords value `"x, y"`. -/
theorem C9_keywords_split_witness :
    (utf8Decode (asciiBytes ("x, y")) = some (("x, y").data) ∧
      pyStrip (("x, y").data) ≠ []) ∧
    (get_document_metadata [[(("Keywords"), asciiBytes ("x, y"))]] 1).keywords =
      some (stripParts ',' (pyStrip (("x, y").data))) :=
  ⟨by decide, (C9_keywords_split _ _ 1 (by decide)).1⟩

/-- Best-effort extraction of the `authors` field alone (spec §4.3): the
fold of the `Author` branch over the property items, ignoring every other
key. -/
def authorsStep (acc : Option (List String)) (key : String) (value : List ℕ) :
    Option (List String) :=
  if key = ("Author") then
    match utf8Decode value with
    | some cs => if 0 < (pyStrip cs).length then some (stripParts ';' (pyStrip cs)) else acc
    | none => acc
  else acc

/-- Best-effort extraction of the `title` field alone. -/
def titleStep (acc : Option String) (key : String) (value : List ℕ) : Option String :=
  if key = ("Title") then
    match utf8Decode value with
    | some cs => if 0 < (pyStrip cs).length then some (String.mk (pyStrip cs)) else acc
    | none => acc
  else acc

/-- Best-effort extraction of the `keywords` field alone. -/
def keywordsStep (acc : Option (List String)) (key : String) (value : List ℕ) :
    Option (List String) :=
  if key = ("Keywords") then
    match utf8Decode value with
    | some cs => if 0 < (pyStrip cs).length then some (stripParts ',' (pyStrip cs)) else acc
    | none => acc
  else acc

/-- Best-effort extraction of the `createdAt` field alone. -/
def createdAtStep (acc : Option String) (key : String) (value : List ℕ) : Option String :=
  if key = ("CreationDate") then
    match utf8Decode value with
    | some cs =>
      match to_date cs with
      | some dt => some (isoformat dt)
      | none => acc
    | none => acc
  else acc

/-- Best-effort extraction of the `updatedAt` field alone. -/
def updatedAtStep (acc : Option String) (key : String) (value : List ℕ) : Option String :=
  if key = ("ModDate") then
    match utf8Decode value with
    | some cs =>
      match to_date cs with
      | some dt => some (isoformat dt)
      | none => acc
    | none => acc
  else acc

/-- Fold one per-field extraction step over the property items. -/
def foldField {α : Type} (step : α → String → List ℕ → α) (init : α)
    (entries : List (String × List ℕ)) : α :=
  entries.foldl (fun acc kv => step acc kv.1 kv.2) init

theorem processKey_pages (m : MetadataRecord) (k : String) (v : List ℕ) :
    (processKey m k v).pages = m.pages := by
  unfold processKey
  repeat' split
  all_goals rfl

theorem processKey_authors (m : MetadataRecord) (k : String) (v : List ℕ) :
    (processKey m k v).authors = authorsStep m.authors k v := by
  unfold processKey authorsStep
  repeat' split
  all_goals simp_all

theorem processKey_title (m : MetadataRecord) (k : String) (v : List ℕ) :
    (processKey m k v).title = titleStep m.title k v := by
  unfold processKey titleStep
  repeat' split
  all_goals simp_all

theorem processKey_keywords (m : MetadataRecord) (k : String) (v : List ℕ) :
    (processKey m k v).keywords = keywordsStep m.keywords k v := by
  unfold processKey keywordsStep
  repeat' split
  all_goals simp_all

theorem processKey_createdAt (m : MetadataRecord) (k : String) (v : List ℕ) :
    (processKey m k v).createdAt = createdAtStep m.createdAt k v := by
  unfold processKey createdAtStep
  repeat' split
  all_goals simp_all

theorem processKey_updatedAt (m : MetadataRecord) (k : String) (v : List ℕ) :
    (processKey m k v).updatedAt = updatedAtStep m.updatedAt k v := by
  unfold processKey updatedAtStep
  repeat' split
  all_goals simp_all

/-- Walking the whole item list updates every field exactly as its own
independent per-field fold does. -/
theorem metadata_foldl_fields (entries : List (String × List ℕ)) (m : MetadataRecord) :
    (entries.foldl (fun acc kv => processKey acc kv.1 kv.2) m).pages = m.pages ∧
    (entries.foldl (fun acc kv => processKey acc kv.1 kv.2) m).authors =
      foldField authorsStep m.authors entries ∧
    (entries.foldl (fun acc kv => processKey acc kv.1 kv.2) m).title =
      foldField titleStep m.title entries ∧
    (entries.foldl (fun acc kv => processKey acc kv.1 kv.2) m).keywords =
      foldField keywordsStep m.keywords entries ∧
    (entries.foldl (fun acc kv => processKey acc kv.1 kv.2) m).createdAt =
      foldField createdAtStep m.createdAt entries ∧
    (entries.foldl (fun acc kv => processKey acc kv.1 kv.2) m).updatedAt =
      foldField updatedAtStep m.updatedAt entries := by
  induction entries generalizing m with
  | nil => exact ⟨rfl, rfl, rfl, rfl, rfl, rfl⟩
  | cons kv rest ih =>
    obtain ⟨p1, p2, p3, p4, p5, p6⟩ := ih (processKey m kv.1 kv.2)
    refine ⟨p1.trans (processKey_pages m kv.1 kv.2), ?_, ?_, ?_, ?_, ?_⟩
    · show (rest.foldl _ (processKey m kv.1 kv.2)).authors = _
      rw [p2, processKey_authors]
      rfl
    · show (rest.foldl _ (processKey m kv.1 kv.2)).title = _
      rw [p3, processKey_title]
      rfl
    · show (rest.foldl _ (processKey m kv.1 kv.2)).keywords = _
      rw [p4, processKey_keywords]
      rfl
    · show (rest.foldl _ (processKey m kv.1 kv.2)).createdAt = _
      rw [p5, processKey_createdAt]
      rfl
    · show (rest.foldl _ (processKey m kv.1 kv.2)).updatedAt = _
      rw [p6, processKey_updatedAt]
      rfl

/-- C4: the record always carries the page count, and each optional field
is a function of only its own property key — so a decode or parse failure
on one key never prevents the other keys of the same map from being
extracted.  The concrete conjunct shows a malformed `CreationDate` leaving
`createdAt` absent while title, authors and keywords from the same map are
still extracted. -/
theorem C4_independent_extraction (info : List (List (String × List ℕ))) (pages : ℕ) :
    (get_document_metadata info pages).pages = pages ∧
    (get_document_metadata info pages).authors = foldField authorsStep none (info.headD []) ∧
    (get_document_metadata info pages).title = foldField titleStep none (info.headD []) ∧
    (get_document_metadata info pages).keywords =
      foldField keywordsStep none (info.headD []) ∧
    (get_document_metadata info pages).createdAt =
      foldField createdAtStep none (info.headD []) ∧
    (get_document_metadata info pages).updatedAt =
      foldField updatedAtStep none (info.headD []) ∧
    get_document_metadata
        [[(("CreationDate"), asciiBytes ("D:garbage")),
          (("Title"), asciiBytes ("My Title")),
          (("Author"), asciiBytes ("Jane; John")),
          (("Keywords"), asciiBytes ("x, y"))]] 3 =
      ⟨3, some [("Jane"), ("John")], some ("My Title"), some [("x"), ("y")],
        none, none⟩ := by
  rcases info with _ | ⟨first, rest⟩
  · exact ⟨rfl, rfl, rfl, rfl, rfl, rfl, by decide⟩
  · obtain ⟨p1, p2, p3, p4, p5, p6⟩ :=
      metadata_foldl_fields first ⟨pages, none, none, none, none, none⟩
    exact ⟨p1, p2, p3, p4, p5, p6, by decide⟩

/-! ## C5 / C10: behaviour of `to_date` -/

theorem digitChar_isDigit {k : ℕ} (h : k < 10) : (Nat.digitChar k).isDigit = true := by
  interval_cases k <;> decide

theorem charDigit_digitChar {k : ℕ} (h : k < 10) : charDigit (Nat.digitChar k) = k := by
  interval_cases k <;> decide

theorem natDigits_three_digit {n : ℕ} (h1 : 100 ≤ n) (h2 : n < 1000) :
    natDigits n = [Nat.digitChar (n / 100), Nat.digitChar (n / 10 % 10),
      Nat.digitChar (n % 10)] := by
  rw [natDigits_eq, if_neg (by omega), natDigits_two_digit (by omega) (by omega)]
  have e1 : n / 10 / 10 = n / 100 := by omega
  rw [e1]
  rfl

theorem natDigits_four_digit {n : ℕ} (h1 : 1000 ≤ n) (h2 : n < 10000) :
    natDigits n = [Nat.digitChar (n / 1000), Nat.digitChar (n / 100 % 10),
      Nat.digitChar (n / 10 % 10), Nat.digitChar (n % 10)] := by
  rw [natDigits_eq, if_neg (by omega), natDigits_three_digit (by omega) (by omega)]
  have e1 : n / 10 / 100 = n / 1000 := by omega
  have e2 : n / 10 / 10 % 10 = n / 100 % 10 := by omega
  have e3 : n / 10 % 10 = n / 10 % 10 := rfl
  rw [e1, e2]
  rfl

theorem zeroPadNat_four_data {n : ℕ} (h : n < 10000) :
    (zeroPadNat 4 n).data = [Nat.digitChar (n / 1000), Nat.digitChar (n / 100 % 10),
      Nat.digitChar (n / 10 % 10), Nat.digitChar (n % 10)] := by
  by_cases h1 : n < 10
  · have hd : natDigits n = [Nat.digitChar n] := natDigits_one_digit h1
    have q1 : n / 1000 = 0 := by omega
    have q2 : n / 100 % 10 = 0 := by omega
    have q3 : n / 10 % 10 = 0 := by omega
    have q4 : n % 10 = n := by omega
    simp [zeroPadNat, hd, q1, q2, q3, q4, List.replicate, digitChar_zero]
  · by_cases h2 : n < 100
    · have hd := natDigits_two_digit (by omega) h2
      have q1 : n / 1000 = 0 := by omega
      have q2 : n / 100 % 10 = 0 := by omega
      have q3 : n / 10 % 10 = n / 10 := by omega
      simp [zeroPadNat, hd, q1, q2, q3, List.replicate, digitChar_zero]
    · by_cases h3 : n < 1000
      · have hd := natDigits_three_digit (by omega) h3
        have q1 : n / 1000 = 0 := by omega
        have q2 : n / 100 % 10 = n / 100 := by omega
        simp [zeroPadNat, hd, q1, q2, List.replicate, digitChar_zero]
      · have hd := natDigits_four_digit (by omega) h
        simp [zeroPadNat, hd]

/-- `%Y` consumes exactly the four padded digits of the year. -/
theorem compY_pad {y : ℕ} (h : y ≤ 9999) (rest : List Char) :
    compY ((zeroPadNat 4 y).data ++ rest) = [(y, rest)] := by
  rw [zeroPadNat_four_data (by omega)]
  show (if _ then _ else _) = _
  rw [if_pos ⟨digitChar_isDigit (by omega), digitChar_isDigit (by omega),
    digitChar_isDigit (by omega), digitChar_isDigit (by omega)⟩]
  rw [charDigit_digitChar (by omega), charDigit_digitChar (by omega),
    charDigit_digitChar (by omega), charDigit_digitChar (by omega)]
  have : y / 1000 * 1000 + y / 100 % 10 * 100 + y / 10 % 10 * 10 + y % 10 = y := by omega
  rw [this]
  rfl

/-- `%m` matches the two padded digits of a month first. -/
theorem compm_pad {mo : ℕ} (h1 : 1 ≤ mo) (h2 : mo ≤ 12) (rest : List Char) :
    ∃ tl, compm ((zeroPadNat 2 mo).data ++ rest) = (mo, rest) :: tl := by
  interval_cases mo <;> exact ⟨_, by rw [zeroPadNat_two_data (by omega)]; rfl⟩

/-- `%d` matches the two padded digits of a day first. -/
theorem compd_pad {d : ℕ} (h1 : 1 ≤ d) (h2 : d ≤ 31) (rest : List Char) :
    ∃ tl, compd ((zeroPadNat 2 d).data ++ rest) = (d, rest) :: tl := by
  interval_cases d <;> exact ⟨_, by rw [zeroPadNat_two_data (by omega)]; rfl⟩

/-- `%H` matches the two padded digits of an hour first. -/
theorem compH_pad {h : ℕ} (h2 : h ≤ 23) (rest : List Char) :
    ∃ tl, compH ((zeroPadNat 2 h).data ++ rest) = (h, rest) :: tl := by
  interval_cases h <;> exact ⟨_, by rw [zeroPadNat_two_data (by omega)]; rfl⟩

/-- `%M` matches the two padded digits of a minute first. -/
theorem compM_pad {mi : ℕ} (h2 : mi ≤ 59) (rest : List Char) :
    ∃ tl, compM ((zeroPadNat 2 mi).data ++ rest) = (mi, rest) :: tl := by
  interval_cases mi <;> exact ⟨_, by rw [zeroPadNat_two_data (by omega)]; rfl⟩

/-- `%S` matches the two padded digits of a second first. -/
theorem compS_pad {s : ℕ} (h2 : s ≤ 59) (rest : List Char) :
    ∃ tl, compS ((zeroPadNat 2 s).data ++ rest) = (s, rest) :: tl := by
  interval_cases s <;> exact ⟨_, by rw [zeroPadNat_two_data (by omega)]; rfl⟩

/-- The backtracking matcher commits to the first candidate of a component
whenever the remaining components match from there. -/
theorem matchComps_cons_head {c : List Char → List (ℕ × List Char)}
    {cs : List (List Char → List (ℕ × List Char))} {s r : List Char} {v : ℕ}
    {tl : List (ℕ × List Char)} {out : List ℕ × List Char}
    (h1 : c s = (v, r) :: tl) (h2 : matchComps cs r = some out) :
    matchComps (c :: cs) s = some (v :: out.1, out.2) := by
  show (c s).findSome? _ = _
  rw [h1]
  simp [List.findSome?, h2]

/-- A well-formed zero-padded `YYYYMMDDHHMMSS` string parses to its six
fields, each two-digit alternative winning. -/
theorem strptime_success {y mo d h mi s : ℕ} (hy : y ≤ 9999)
    (hmo1 : 1 ≤ mo) (hmo : mo ≤ 12) (hd1 : 1 ≤ d) (hd : d ≤ 31)
    (hh : h ≤ 23) (hmi : mi ≤ 59) (hs : s ≤ 59) :
    strptimeYmdHMS ((zeroPadNat 4 y).data ++ ((zeroPadNat 2 mo).data
      ++ ((zeroPadNat 2 d).data ++ ((zeroPadNat 2 h).data
      ++ ((zeroPadNat 2 mi).data ++ (zeroPadNat 2 s).data))))) =
      some (y, mo, d, h, mi, s) := by
  obtain ⟨tS, eS⟩ := compS_pad hs []
  rw [List.append_nil] at eS
  have m1 : matchComps [compS] ((zeroPadNat 2 s).data) = some ([s], []) :=
    matchComps_cons_head eS (rfl : matchComps [] [] = some ([], []))
  obtain ⟨tM, eM⟩ := compM_pad hmi ((zeroPadNat 2 s).data)
  have m2 := matchComps_cons_head eM m1
  obtain ⟨tH, eH⟩ := compH_pad hh ((zeroPadNat 2 mi).data ++ (zeroPadNat 2 s).data)
  have m3 := matchComps_cons_head eH m2
  obtain ⟨tD, eD⟩ := compd_pad hd1 hd ((zeroPadNat 2 h).data
    ++ ((zeroPadNat 2 mi).data ++ (zeroPadNat 2 s).data))
  have m4 := matchComps_cons_head eD m3
  obtain ⟨tMo, eMo⟩ := compm_pad hmo1 hmo ((zeroPadNat 2 d).data
    ++ ((zeroPadNat 2 h).data ++ ((zeroPadNat 2 mi).data ++ (zeroPadNat 2 s).data)))
  have m5 := matchComps_cons_head eMo m4
  have eY := compY_pad hy ((zeroPadNat 2 mo).data ++ ((zeroPadNat 2 d).data
    ++ ((zeroPadNat 2 h).data ++ ((zeroPadNat 2 mi).data ++ (zeroPadNat 2 s).data))))
  have m6 := matchComps_cons_head eY m5
  rw [strptimeYmdHMS, m6]
  rfl

theorem daysInMonth_le_31 (y m : ℕ) : daysInMonth y m ≤ 31 := by
  unfold daysInMonth
  split_ifs <;> omega

theorem daysInMonth_pos (y m : ℕ) : 1 ≤ daysInMonth y m := by
  unfold daysInMonth
  split_ifs <;> omega

/-- On an in-range datetime (no leap second, valid day) the `mktime` /
`fromtimestamp` round trip changes nothing. -/
theorem normalizeTime_id (dt : PdfDateTime) (h2 : dt.second ≤ 59) (h3 : dt.minute ≤ 59)
    (h4 : dt.hour ≤ 23) (h5 : dt.day ≤ daysInMonth dt.year dt.month) :
    normalizeTime dt = dt := by
  obtain ⟨y, mo, d, h, mi, s⟩ := dt
  dsimp only at h2 h3 h4 h5
  unfold normalizeTime
  dsimp only
  have ea : d + (h + (mi + s / 60) / 60) / 24 = d := by omega
  have eb : (h + (mi + s / 60) / 60) % 24 = h := by omega
  have ec : (mi + s / 60) % 60 = mi := by omega
  have ed : s % 60 = s := by omega
  rw [ea, eb, ec, ed, if_neg (by omega)]

theorem zeroPadNat_two_length {n : ℕ} (hn : n < 100) : (zeroPadNat 2 n).data.length = 2 := by
  rw [zeroPadNat_two_data hn]
  rfl

/-- C5 (amended): a date string made of an arbitrary 2-character prefix,
a zero-padded in-range `YYYYMMDDHHMMSS` core and an arbitrary 7-character
suffix parses to exactly its six fields (the prefix and suffix are never
inspected); malformed inputs — non-numeric characters, an invalid calendar
day, a too-short string — yield `none` (the code never raises: `to_date`
is total with an `Option` result).  The core is 14 characters for
23-character inputs, but shorter variable-width cores can also parse, see
the counterexample. -/
theorem C5_to_date_parse (p suf : List Char) (y mo d h mi s : ℕ)
    (hyp : p.length = 2 ∧ suf.length = 7 ∧ 1 ≤ y ∧ y ≤ 9999 ∧ 1 ≤ mo ∧ mo ≤ 12 ∧
      1 ≤ d ∧ d ≤ daysInMonth y mo ∧ h ≤ 23 ∧ mi ≤ 59 ∧ s ≤ 59) :
    to_date (p ++ ((zeroPadNat 4 y).data ++ ((zeroPadNat 2 mo).data ++ ((zeroPadNat 2 d).data
      ++ ((zeroPadNat 2 h).data ++ ((zeroPadNat 2 mi).data ++ ((zeroPadNat 2 s).data ++ suf)))))))
      = some ⟨y, mo, d, h, mi, s⟩ ∧
    to_date (("D:2023O101120000+000000").data) = none ∧
    to_date (("D:20230230120000+000000").data) = none ∧
    to_date (("D:20230101").data) = none := by
  obtain ⟨hp, hsuf, hy1, hy, hmo1, hmo, hd1, hdm, hh, hmi, hs⟩ := hyp
  refine ⟨?_, by decide, by decide, by decide⟩
  have hd31 : d ≤ 31 := le_trans hdm (daysInMonth_le_31 y mo)
  have hassoc : p ++ ((zeroPadNat 4 y).data ++ ((zeroPadNat 2 mo).data ++ ((zeroPadNat 2 d).data
      ++ ((zeroPadNat 2 h).data ++ ((zeroPadNat 2 mi).data ++ ((zeroPadNat 2 s).data ++ suf))))))
      = p ++ (((zeroPadNat 4 y).data ++ ((zeroPadNat 2 mo).data ++ ((zeroPadNat 2 d).data
      ++ ((zeroPadNat 2 h).data ++ ((zeroPadNat 2 mi).data ++ (zeroPadNat 2 s).data))))) ++ suf) := by
    simp [List.append_assoc]
  rw [hassoc]
  set F := (zeroPadNat 4 y).data ++ ((zeroPadNat 2 mo).data ++ ((zeroPadNat 2 d).data
    ++ ((zeroPadNat 2 h).data ++ ((zeroPadNat 2 mi).data ++ (zeroPadNat 2 s).data)))) with hF
  have hFlen : F.length = 14 := by
    rw [hF]
    have h4 : (zeroPadNat 4 y).data.length = 4 := by
      rw [zeroPadNat_four_data (by omega)]
      rfl
    simp [List.length_append, h4, zeroPadNat_two_length (show mo < 100 by omega),
      zeroPadNat_two_length (show d < 100 by omega),
      zeroPadNat_two_length (show h < 100 by omega),
      zeroPadNat_two_length (show mi < 100 by omega),
      zeroPadNat_two_length (show s < 100 by omega)]
  unfold to_date
  dsimp only
  have hdrop : (p ++ (F ++ suf)).drop 2 = F ++ suf := List.drop_left' hp
  have hlen : (p ++ (F ++ suf)).length - 9 = 14 := by
    simp [List.length_append, hp, hsuf, hFlen]
  rw [hdrop, hlen, List.take_left' hFlen, hF,
    strptime_success hy hmo1 hmo hd1 hd31 hh hmi hs]
  dsimp only
  rw [if_neg (by omega : ¬ y = 0), if_neg (by omega : ¬ daysInMonth y mo < d),
    normalizeTime_id ⟨y, mo, d, h, mi, s⟩ hs hmi hh hdm]
  have hyr : ¬ 9999 < (⟨y, mo, d, h, mi, s⟩ : PdfDateTime).year := by
    show ¬ 9999 < y
    omega
  rw [if_neg hyr]

/-- C5 counterexample: a 22-character input (13-character core) still
parses — `strptime`'s flexible-width directives let `%S` match a single
digit — so "malformed length returns None" and "a successful parse reads a
14-character core" are both false as universal statements. -/
theorem C5_counterexample :
    to_date (("D:2023121212121+000000").data) = some ⟨2023, 12, 12, 12, 12, 1⟩ ∧
    (("D:2023121212121+000000").data).length = 22 ∧
    ((("D:2023121212121+000000").data).drop 2).take
      ((("D:2023121212121+000000").data).length - 9) = ("2023121212121").data :=
  ⟨by decide, by decide, by decide⟩

/-- Witness for C5 at a concrete well-formed 23-character PDF date. -/
theorem C5_to_date_parse_witness :
    ((("D:").data.length = 2 ∧ (("+000000").data).length = 7 ∧ (1 : ℕ) ≤ 2023 ∧
      2023 ≤ 9999 ∧ (1 : ℕ) ≤ 12 ∧ 12 ≤ 12 ∧ (1 : ℕ) ≤ 25 ∧ 25 ≤ daysInMonth 2023 12 ∧
      (13 : ℕ) ≤ 23 ∧ (30 : ℕ) ≤ 59 ∧ (45 : ℕ) ≤ 59)) ∧
    to_date ((("D:").data) ++ ((zeroPadNat 4 2023).data ++ ((zeroPadNat 2 12).data
      ++ ((zeroPadNat 2 25).data ++ ((zeroPadNat 2 13).data ++ ((zeroPadNat 2 30).data
      ++ ((zeroPadNat 2 45).data ++ (("+000000").data))))))))
      = some ⟨2023, 12, 25, 13, 30, 45⟩ :=
  ⟨by decide,
    (C5_to_date_parse (("D:").data) (("+000000").data) 2023 12 25 13 30 45 (by decide)).1⟩

theorem altTwo_length {p : Char → Char → Bool} {f : Char → Char → ℕ} :
    ∀ {s : List Char} {v : ℕ} {r : List Char},
      (v, r) ∈ altTwo p f s → s.length = r.length + 2 := by
  intro s v r h
  match s with
  | [] => simp [altTwo] at h
  | [x] => simp [altTwo] at h
  | x :: y :: rest =>
    by_cases hb : p x y = true
    · simp [altTwo, hb] at h
      obtain ⟨-, rfl⟩ := h
      simp
    · simp [altTwo, hb] at h

theorem altOne_length {p : Char → Bool} {f : Char → ℕ} :
    ∀ {s : List Char} {v : ℕ} {r : List Char},
      (v, r) ∈ altOne p f s → s.length = r.length + 1 := by
  intro s v r h
  match s with
  | [] => simp [altOne] at h
  | x :: rest =>
    by_cases hb : p x = true
    · simp [altOne, hb] at h
      obtain ⟨-, rfl⟩ := h
      simp
    · simp [altOne, hb] at h

theorem compY_length {s : List Char} {v : ℕ} {r : List Char}
    (h : (v, r) ∈ compY s) : s.length = r.length + 4 := by
  match s with
  | [] => simp [compY] at h
  | [a] => simp [compY] at h
  | [a, b] => simp [compY] at h
  | [a, b, c] => simp [compY] at h
  | a :: b :: c :: d :: rest =>
    by_cases hb : a.isDigit = true ∧ b.isDigit = true ∧ c.isDigit = true ∧ d.isDigit = true
    · simp [compY, hb.1, hb.2.1, hb.2.2.1, hb.2.2.2] at h
      obtain ⟨-, rfl⟩ := h
      simp
    · have : compY (a :: b :: c :: d :: rest) = [] := by
        show (if _ then _ else _) = _
        rw [if_neg hb]
      rw [this] at h
      simp at h

theorem compm_length {s : List Char} {v : ℕ} {r : List Char}
    (h : (v, r) ∈ compm s) : r.length + 1 ≤ s.length ∧ s.length ≤ r.length + 2 := by
  rcases List.mem_append.mp h with h1 | h1
  · rcases List.mem_append.mp h1 with h2 | h2
    · have := altTwo_length h2
      omega
    · have := altTwo_length h2
      omega
  · have := altOne_length h1
    omega

theorem compd_length {s : List Char} {v : ℕ} {r : List Char}
    (h : (v, r) ∈ compd s) : r.length + 1 ≤ s.length ∧ s.length ≤ r.length + 2 := by
  rcases List.mem_append.mp h with h1 | h1
  · rcases List.mem_append.mp h1 with h2 | h2
    · rcases List.mem_append.mp h2 with h3 | h3
      · rcases List.mem_append.mp h3 with h4 | h4
        · have := altTwo_length h4
          omega
        · have := altTwo_length h4
          omega
      · have := altTwo_length h3
        omega
    · have := altOne_length h2
      omega
  · have := altTwo_length h1
    omega

theorem compH_length {s : List Char} {v : ℕ} {r : List Char}
    (h : (v, r) ∈ compH s) : r.length + 1 ≤ s.length ∧ s.length ≤ r.length + 2 := by
  rcases List.mem_append.mp h with h1 | h1
  · rcases List.mem_append.mp h1 with h2 | h2
    · have := altTwo_length h2
      omega
    · have := altTwo_length h2
      omega
  · have := altOne_length h1
    omega

theorem compM_length {s : List Char} {v : ℕ} {r : List Char}
    (h : (v, r) ∈ compM s) : r.length + 1 ≤ s.length ∧ s.length ≤ r.length + 2 := by
  rcases List.mem_append.mp h with h1 | h1
  · have := altTwo_length h1
    omega
  · have := altOne_length h1
    omega

theorem compS_length {s : List Char} {v : ℕ} {r : List Char}
    (h : (v, r) ∈ compS s) : r.length + 1 ≤ s.length ∧ s.length ≤ r.length + 2 := by
  rcases List.mem_append.mp h with h1 | h1
  · rcases List.mem_append.mp h1 with h2 | h2
    · have := altTwo_length h2
      omega
    · have := altTwo_length h2
      omega
  · have := altOne_length h1
    omega

/-- Inversion for the matcher on a cons of components. -/
theorem matchComps_cons_bounds {c : List Char → List (ℕ × List Char)}
    {cs : List (List Char → List (ℕ × List Char))} {s : List Char}
    {vs : List ℕ} {r : List Char}
    (h : matchComps (c :: cs) s = some (vs, r)) :
    ∃ v r1 vs1, (v, r1) ∈ c s ∧ matchComps cs r1 = some (vs1, r) ∧ vs = v :: vs1 := by
  change (c s).findSome? _ = _ at h
  obtain ⟨⟨v, r1⟩, hmem, hf⟩ := List.exists_of_findSome?_eq_some h
  rcases ho : matchComps cs r1 with _ | ⟨vs1, r2⟩
  · rw [ho] at hf
    simp at hf
  · rw [ho] at hf
    simp at hf
    exact ⟨v, r1, vs1, hmem, by rw [ho, hf.2], hf.1.symm⟩

/-- A successful full match of `%Y%m%d%H%M%S` consumes between 9 and 14
characters. -/
theorem matchComps_six_length {l : List Char} {vs : List ℕ} {r : List Char}
    (h : matchComps [compY, compm, compd, compH, compM, compS] l = some (vs, r)) :
    r.length + 9 ≤ l.length ∧ l.length ≤ r.length + 14 := by
  obtain ⟨v1, r1, vs1, hm1, h1, -⟩ := matchComps_cons_bounds h
  obtain ⟨v2, r2, vs2, hm2, h2, -⟩ := matchComps_cons_bounds h1
  obtain ⟨v3, r3, vs3, hm3, h3, -⟩ := matchComps_cons_bounds h2
  obtain ⟨v4, r4, vs4, hm4, h4, -⟩ := matchComps_cons_bounds h3
  obtain ⟨v5, r5, vs5, hm5, h5, -⟩ := matchComps_cons_bounds h4
  obtain ⟨v6, r6, vs6, hm6, h6, -⟩ := matchComps_cons_bounds h5
  have h7 : (some (([] : List ℕ), r6) : Option (List ℕ × List Char)) = some (vs6, r) := h6
  have e0 : r6 = r := by
    simp only [Option.some.injEq, Prod.mk.injEq] at h7
    exact h7.2

  have b1 := compY_length hm1
  have b2 := compm_length hm2
  have b3 := compd_length hm3
  have b4 := compH_length hm4
  have b5 := compM_length hm5
  have b6 := compS_length hm6
  subst e0
  omega

/-- C10 (amended): `to_date` can succeed only when the sliced core
(positions 2 through length−8) is matched in full by the flexible-width
`%Y%m%d%H%M%S` regexes — between 9 and 14 characters, so only inputs of
18 to 23 characters can parse (not only 23-character ones, see the
counterexample); in particular the 16-character suffix-less PDF date
`D:20230101120000` fails and its field is silently omitted. -/
theorem C10_to_date_bounds (l : List Char) (dt : PdfDateTime)
    (h : to_date l = some dt) :
    (18 ≤ l.length ∧ l.length ≤ 23) ∧
    to_date (("D:20230101120000").data) = none ∧
    (get_document_metadata
        [[(("CreationDate"), asciiBytes ("D:20230101120000"))]] 1).createdAt = none := by
  refine ⟨?_, by decide, by decide⟩
  unfold to_date at h
  dsimp only at h
  split at h
  · exact absurd h (by simp)
  · next y mo d hh mi s heq =>
    unfold strptimeYmdHMS at heq
    split at heq
    · next y2 mo2 d2 h2 mi2 s2 rest heq2 =>
      by_cases hr : rest = []
      · subst hr
        have hb := matchComps_six_length heq2
        have hcore : ((l.drop 2).take (l.length - 9)).length = l.length - 9 := by
          rw [List.length_take, List.length_drop]
          exact Nat.min_eq_left (by omega)
        rw [hcore] at hb
        simp only [List.length_nil] at hb
        omega
      · rw [if_neg hr] at heq
        exact absurd heq (by simp)
    · exact absurd heq (by simp)

/-- C10 counterexample: a 22-character input parses successfully, so
`to_date` does not succeed only on 23-character inputs with a
14-character core. -/
theorem C10_counterexample :
    to_date (("D:2023111111111+000000").data) = some ⟨2023, 11, 11, 11, 11, 1⟩ ∧
    (("D:2023111111111+000000").data).length = 22 :=
  ⟨by decide, by decide⟩

/-- Witness for C10 at a concrete successful 23-character input. -/
theorem C10_to_date_bounds_witness :
    to_date (("D:20231225133045+000000").data) = some ⟨2023, 12, 25, 13, 30, 45⟩ ∧
    (18 ≤ (("D:20231225133045+000000").data).length ∧
      (("D:20231225133045+000000").data).length ≤ 23) := by
  have hd : to_date (("D:20231225133045+000000").data) =
      some ⟨2023, 12, 25, 13, 30, 45⟩ := by decide
  exact ⟨hd, (C10_to_date_bounds _ _ hd).1⟩

/-! ## C6: the RawJSON writer (utils.py lines 112–116)

`WriteJSON.write_result` is the single call `json.dump(result, file)`.
The JSON-serializable results are modelled by `JVal` (numbers restricted
to integers: the floating-point repr round trip is outside this
embedding), `json.dump` by `serJ` (default separators `", "` / `": "`,
`ensure_ascii=True` escaping, including surrogate pairs for astral code
points), and `json.loads` by a fuel-indexed recursive-descent parser.
The parser rejects lone-surrogate `\uXXXX` escapes, which a Lean `Char`
cannot represent; serialized output never contains them. -/

/-- A JSON-serializable Python value. -/
inductive JVal where
  | null : JVal
  | bool : Bool → JVal
  | num : ℤ → JVal
  | str : List Char → JVal
  | arr : List JVal → JVal
  | obj : List (List Char × JVal) → JVal

/-- Four lowercase hex digits, as produced by `"\u%04x"`. -/
def hex4 (n : ℕ) : List Char :=
  [Nat.digitChar (n / 4096 % 16), Nat.digitChar (n / 256 % 16),
    Nat.digitChar (n / 16 % 16), Nat.digitChar (n % 16)]

/-- The `ensure_ascii` escaping of one character in a JSON string
(CPython `json.encoder.py_encode_basestring_ascii`). -/
def escChar (c : Char) : List Char :=
  if c = '"' then ['\\', '"']
  else if c = '\\' then ['\\', '\\']
  else if c = '\x08' then ['\\', 'b']
  else if c = '\x0c' then ['\\', 'f']
  else if c = '\n' then ['\\', 'n']
  else if c = '\r' then ['\\', 'r']
  else if c = '\t' then ['\\', 't']
  else if 0x20 ≤ c.toNat ∧ c.toNat ≤ 0x7e then [c]
  else if c.toNat < 0x10000 then '\\' :: 'u' :: hex4 c.toNat
  else
    '\\' :: 'u' :: hex4 (0xD800 + (c.toNat - 0x10000) / 1024)
      ++ ('\\' :: 'u' :: hex4 (0xDC00 + (c.toNat - 0x10000) % 1024))

def escString (s : List Char) : List Char := s.foldr (fun c acc => escChar c ++ acc) []

mutual
/-- `json.dumps` with the default separators. -/
def serJ : JVal → List Char
  | .null => ("null").data
  | .bool true => ("true").data
  | .bool false => ("false").data
  | .num n => intRender n
  | .str s => '"' :: (escString s ++ ['"'])
  | .arr xs => '[' :: (serArr xs ++ [']'])
  | .obj kvs => '\x7b' :: (serObj kvs ++ ['\x7d'])

/-- Array elements joined by `", "`. -/
def serArr : List JVal → List Char
  | [] => []
  | [x] => serJ x
  | x :: y :: rest => serJ x ++ (',' :: ' ' :: serArr (y :: rest))

/-- Object entries `"key": value` joined by `", "`. -/
def serObj : List (List Char × JVal) → List Char
  | [] => []
  | [(k, v)] => '"' :: (escString k ++ ('"' :: ':' :: ' ' :: serJ v))
  | (k, v) :: e :: rest =>
    '"' :: (escString k ++ ('"' :: ':' :: ' ' ::
      (serJ v ++ (',' :: ' ' :: serObj (e :: rest)))))
end

/-- Embedding of `WriteJSON.write_result`: serialize the whole result
object exactly once, untouched. -/
def writeJSON (result : JVal) : String := String.mk (serJ result)

/-- The whitespace skipped between JSON tokens by `json.loads`. -/
def jsonWs (c : Char) : Bool := decide (c = ' ' ∨ c = '\t' ∨ c = '\n' ∨ c = '\r')

def skipWs (s : List Char) : List Char := s.dropWhile jsonWs

def hexVal (c : Char) : Option ℕ :=
  if '0' ≤ c ∧ c ≤ '9' then some (c.toNat - 48)
  else if 'a' ≤ c ∧ c ≤ 'f' then some (c.toNat - 87)
  else if 'A' ≤ c ∧ c ≤ 'F' then some (c.toNat - 55)
  else none

def parse4Hex : List Char → Option (ℕ × List Char)
  | a :: b :: c :: d :: rest =>
    match hexVal a, hexVal b, hexVal c, hexVal d with
    | some x, some y, some z, some w => some (x * 4096 + y * 256 + z * 16 + w, rest)
    | _, _, _, _ => none
  | _ => none

def digitsToNat (ds : List Char) : ℕ := ds.foldl (fun acc c => acc * 10 + charDigit c) 0

/-- The integer part of the JSON number grammar (the results serialized
here contain only integers; a fraction or exponent is out of model). -/
def parseNumCore (s1 : List Char) (neg : Bool) : Option (JVal × List Char) :=
  let ds := s1.takeWhile Char.isDigit
  let r := s1.dropWhile Char.isDigit
  if ds = [] then none
  else if r.head? = some '.' ∨ r.head? = some 'e' ∨ r.head? = some 'E' then none
  else some (.num (if neg then -(digitsToNat ds : ℤ) else (digitsToNat ds : ℤ)), r)

def parseNum (s : List Char) : Option (JVal × List Char) :=
  if s.head? = some '-' then parseNumCore s.tail true else parseNumCore s false

/-- Decoding of the low surrogate of a \uXXXX\uXXXX pair. -/
def parseLowSurrogate (recur : List Char → Option (List Char × List Char)) (hi : ℕ) :
    List Char → Option (List Char × List Char)
  | '\\' :: 'u' :: r3 =>
    (match parse4Hex r3 with
    | some (m2, r4) =>
      if 0xDC00 ≤ m2 ∧ m2 < 0xE000 then
        (recur r4).map (fun p =>
          (Char.ofNat (0x10000 + (hi - 0xD800) * 1024 + (m2 - 0xDC00)) :: p.1, p.2))
      else none
    | none => none)
  | _ => none

/-- Decoding of a \uXXXX escape, including surrogate-pair recombination. -/
def parseUEscape (recur : List Char → Option (List Char × List Char))
    (r : List Char) : Option (List Char × List Char) :=
  match parse4Hex r with
  | some (n, r2) =>
    if 0xD800 ≤ n ∧ n < 0xDC00 then parseLowSurrogate recur n r2
    else if 0xDC00 ≤ n ∧ n < 0xE000 then none
    else (recur r2).map (fun p => (Char.ofNat n :: p.1, p.2))
  | none => none

/-- Decoding of a backslash escape inside a JSON string. -/
def parseEscape (recur : List Char → Option (List Char × List Char)) :
    List Char → Option (List Char × List Char)
  | [] => none
  | e :: r =>
    if e = '"' then (recur r).map (fun p => ('"' :: p.1, p.2))
    else if e = '\\' then (recur r).map (fun p => ('\\' :: p.1, p.2))
    else if e = '/' then (recur r).map (fun p => ('/' :: p.1, p.2))
    else if e = 'b' then (recur r).map (fun p => ('\x08' :: p.1, p.2))
    else if e = 'f' then (recur r).map (fun p => ('\x0c' :: p.1, p.2))
    else if e = 'n' then (recur r).map (fun p => ('\n' :: p.1, p.2))
    else if e = 'r' then (recur r).map (fun p => ('\r' :: p.1, p.2))
    else if e = 't' then (recur r).map (fun p => ('\t' :: p.1, p.2))
    else if e = 'u' then parseUEscape recur r
    else none

/-- String body parser: characters up to the closing quote, decoding
escapes (including surrogate pairs). -/
def parseJStringAux : ℕ → List Char → Option (List Char × List Char)
  | 0, _ => none
  | fuel + 1, s =>
    match s with
    | [] => none
    | c :: rest =>
      if c = '"' then some ([], rest)
      else if c = '\\' then parseEscape (fun l => parseJStringAux fuel l) rest
      else if c.toNat < 0x20 then none
      else (parseJStringAux fuel rest).map (fun p => (c :: p.1, p.2))

/-- The `[`-branch of the value parser: empty array or element list. -/
def arrBranch (pe : List Char → Option (List JVal × List Char)) (rest : List Char) :
    Option (JVal × List Char) :=
  match skipWs rest with
  | d :: r => if d = ']' then some (.arr [], r) else (pe rest).map (fun p => (.arr p.1, p.2))
  | [] => (pe rest).map (fun p => (.arr p.1, p.2))

/-- The `\x7b`-branch of the value parser: empty object or entry list. -/
def objBranch (pf : List Char → Option (List (List Char × JVal) × List Char))
    (rest : List Char) : Option (JVal × List Char) :=
  match skipWs rest with
  | d :: r => if d = '\x7d' then some (.obj [], r) else (pf rest).map (fun p => (.obj p.1, p.2))
  | [] => (pf rest).map (fun p => (.obj p.1, p.2))

/-- After an array element: a comma continues the list, `]` closes it. -/
def elemSep (pe : List Char → Option (List JVal × List Char)) (v : JVal) :
    List Char → Option (List JVal × List Char)
  | [] => none
  | d :: r2 =>
    if d = ',' then (pe r2).map (fun p => (v :: p.1, p.2))
    else if d = ']' then some ([v], r2)
    else none

/-- After an object entry: a comma continues the list, `\x7d` closes it. -/
def fieldSep (pf : List Char → Option (List (List Char × JVal) × List Char))
    (k : List Char) (v : JVal) : List Char → Option (List (List Char × JVal) × List Char)
  | [] => none
  | d :: r5 =>
    if d = ',' then (pf r5).map (fun p => ((k, v) :: p.1, p.2))
    else if d = '\x7d' then some ([(k, v)], r5)
    else none

/-- Continuation on the parsed value of an object entry. -/
def valCont (pf : List Char → Option (List (List Char × JVal) × List Char))
    (k : List Char) : Option (JVal × List Char) → Option (List (List Char × JVal) × List Char)
  | some (v, r4) => fieldSep pf k v (skipWs r4)
  | none => none

/-- The value of an object entry, then the separator after it. -/
def fieldValue (pv : List Char → Option (JVal × List Char))
    (pf : List Char → Option (List (List Char × JVal) × List Char))
    (k : List Char) (r3 : List Char) : Option (List (List Char × JVal) × List Char) :=
  valCont pf k (pv r3)

/-- The colon between an object key and its value. -/
def fieldColon (pv : List Char → Option (JVal × List Char))
    (pf : List Char → Option (List (List Char × JVal) × List Char))
    (k : List Char) : List Char → Option (List (List Char × JVal) × List Char)
  | [] => none
  | d2 :: r3 => if d2 = ':' then fieldValue pv pf k r3 else none

/-- Continuation on the parsed key of an object entry. -/
def keyCont (pv : List Char → Option (JVal × List Char))
    (pf : List Char → Option (List (List Char × JVal) × List Char)) :
    Option (List Char × List Char) → Option (List (List Char × JVal) × List Char)
  | some (k, r2) => fieldColon pv pf k (skipWs r2)
  | none => none

/-- An object entry: quoted key, colon, value, separator. -/
def fieldKey (sp : List Char → Option (List Char × List Char))
    (pv : List Char → Option (JVal × List Char))
    (pf : List Char → Option (List (List Char × JVal) × List Char)) :
    List Char → Option (List (List Char × JVal) × List Char)
  | [] => none
  | d :: r => if d = '"' then keyCont pv pf (sp r) else none

mutual
/-- `json.loads` value parser (fuel-indexed recursive descent). -/
def parseValue : ℕ → List Char → Option (JVal × List Char)
  | 0, _ => none
  | fuel + 1, s =>
    match skipWs s with
    | [] => none
    | c :: rest =>
      if c = 'n' then (if rest.take 3 = ['u', 'l', 'l'] then some (.null, rest.drop 3) else none)
      else if c = 't' then
        (if rest.take 3 = ['r', 'u', 'e'] then some (.bool true, rest.drop 3) else none)
      else if c = 'f' then
        (if rest.take 4 = ['a', 'l', 's', 'e'] then some (.bool false, rest.drop 4) else none)
      else if c = '"' then (parseJStringAux fuel rest).map (fun p => (.str p.1, p.2))
      else if c = '[' then arrBranch (fun l => parseElems fuel l) rest
      else if c = '\x7b' then objBranch (fun l => parseFields fuel l) rest
      else parseNum (c :: rest)

/-- Elements of a non-empty array, after the opening bracket. -/
def parseElems : ℕ → List Char → Option (List JVal × List Char)
  | 0, _ => none
  | fuel + 1, s =>
    match parseValue fuel s with
    | some (v, r) => elemSep (fun l => parseElems fuel l) v (skipWs r)
    | none => none

/-- Entries of a non-empty object, after the opening brace. -/
def parseFields : ℕ → List Char → Option (List (List Char × JVal) × List Char)
  | 0, _ => none
  | fuel + 1, s =>
    fieldKey (fun l => parseJStringAux fuel l) (fun l => parseValue fuel l)
      (fun l => parseFields fuel l) (skipWs s)
end

/-- `json.loads`: parse one value and require only whitespace after it. -/
def json_loads (s : String) : Option JVal :=
  match parseValue (s.data.length + 1) s.data with
  | some (v, rest) => if skipWs rest = [] then some v else none
  | none => none

example : json_loads (writeJSON (.arr [.num 1, .str ("a").data, .null])) =
    some (.arr [.num 1, .str ("a").data, .null]) := by rfl

theorem char_toNat_valid (c : Char) :
    c.toNat < 0xd800 ∨ (0xdfff < c.toNat ∧ c.toNat < 0x110000) := by
  rcases c.valid with h | ⟨h1, h2⟩
  · exact Or.inl (UInt32.toNat_lt_of_lt (by decide) h)
  · exact Or.inr ⟨UInt32.lt_toNat_of_lt (by decide) h1,
      UInt32.toNat_lt_of_lt (by decide) h2⟩

theorem hexVal_digitChar {k : ℕ} (h : k < 16) : hexVal (Nat.digitChar k) = some k := by
  interval_cases k <;> decide

theorem parse4Hex_hex4 {n : ℕ} (h : n < 65536) (r : List Char) :
    parse4Hex (hex4 n ++ r) = some (n, r) := by
  have e1 : n / 4096 % 16 = n / 4096 := by omega
  have d1 := hexVal_digitChar (show n / 4096 < 16 by omega)
  have d2 := hexVal_digitChar (show n / 256 % 16 < 16 by omega)
  have d3 := hexVal_digitChar (show n / 16 % 16 < 16 by omega)
  have d4 := hexVal_digitChar (show n % 16 < 16 by omega)
  simp only [hex4, List.cons_append, List.nil_append]
  rw [e1]
  simp only [parse4Hex, d1, d2, d3, d4]
  have e2 : n / 4096 * 4096 + n / 256 % 16 * 256 + n / 16 % 16 * 16 + n % 16 = n := by
    omega
  rw [e2]

theorem natDigits_ne_nil (n : ℕ) : natDigits n ≠ [] := by
  rw [natDigits_eq]
  by_cases h : n < 10
  · simp [h]
  · simp [h]

theorem natDigits_digits (n : ℕ) : ∀ c ∈ natDigits n, c.isDigit = true := by
  induction n using Nat.strong_induction_on with
  | _ n ih =>
    rw [natDigits_eq]
    by_cases h : n < 10
    · simp only [if_pos h, List.mem_singleton]
      rintro c rfl
      exact digitChar_isDigit h
    · simp only [if_neg h, List.mem_append, List.mem_singleton]
      rintro c (hc | rfl)
      · exact ih (n / 10) (Nat.div_lt_self (by omega) (by omega)) c hc
      · exact digitChar_isDigit (by omega)

theorem digitsToNat_append_one (ds : List Char) (c : Char) :
    digitsToNat (ds ++ [c]) = digitsToNat ds * 10 + charDigit c := by
  simp [digitsToNat, List.foldl_append]

theorem digitsToNat_natDigits (n : ℕ) : digitsToNat (natDigits n) = n := by
  induction n using Nat.strong_induction_on with
  | _ n ih =>
    rw [natDigits_eq]
    by_cases h : n < 10
    · simp only [if_pos h]
      show 0 * 10 + charDigit (Nat.digitChar n) = n
      rw [charDigit_digitChar h]
      omega
    · simp only [if_neg h]
      rw [digitsToNat_append_one, ih (n / 10) (Nat.div_lt_self (by omega) (by omega)),
        charDigit_digitChar (by omega)]
      omega

/-- The continuation after a serialized value inside a JSON document:
nothing, or a separator. -/
def SepStart (l : List Char) : Prop :=
  l = [] ∨ (∃ t, l = ',' :: t) ∨ (∃ t, l = ']' :: t) ∨ (∃ t, l = '\x7d' :: t)

theorem SepStart.head_not_digit {l : List Char} (h : SepStart l) :
    ∀ c, l.head? = some c → c.isDigit = false := by
  rcases h with rfl | ⟨t, rfl⟩ | ⟨t, rfl⟩ | ⟨t, rfl⟩ <;> intro c hc <;> simp at hc
  · rw [← hc]
    decide
  · rw [← hc]
    decide
  · rw [← hc]
    decide

theorem takeWhile_digits_split {ds rest : List Char}
    (hds : ∀ c ∈ ds, c.isDigit = true)
    (hrest : ∀ c, rest.head? = some c → c.isDigit = false) :
    (ds ++ rest).takeWhile Char.isDigit = ds ∧
    (ds ++ rest).dropWhile Char.isDigit = rest := by
  induction ds with
  | nil =>
    simp only [List.nil_append]
    constructor
    · match rest with
      | [] => rfl
      | c :: t =>
        have := hrest c rfl
        simp [List.takeWhile_cons, this]
    · match rest with
      | [] => rfl
      | c :: t =>
        have := hrest c rfl
        simp [List.dropWhile_cons, this]
  | cons c t ih =>
    have hc : c.isDigit = true := hds c (by simp)
    have ht : ∀ x ∈ t, x.isDigit = true := fun x hx => hds x (by simp [hx])
    obtain ⟨h1, h2⟩ := ih ht
    constructor
    · simp [List.takeWhile_cons, hc, h1]
    · simp [List.dropWhile_cons, hc, h2]

theorem parseNum_roundtrip (n : ℤ) (rest : List Char) (h : SepStart rest) :
    parseNum (intRender n ++ rest) = some (.num n, rest) := by
  have hnd := h.head_not_digit
  have hdots : ∀ (x : Char), rest.head? = some x → x = '.' ∨ x = 'e' ∨ x = 'E' → False := by
    rcases h with rfl | ⟨t, rfl⟩ | ⟨t, rfl⟩ | ⟨t, rfl⟩ <;> intro x hx
    · simp at hx
    · simp at hx
      subst hx
      decide
    · simp at hx
      subst hx
      decide
    · simp at hx
      subst hx
      decide
  by_cases hneg : n < 0
  · have hir : intRender n = '-' :: natDigits n.natAbs := by
      rw [intRender, if_pos hneg]
    rw [hir]
    have hhead : (('-' :: natDigits n.natAbs) ++ rest).head? = some '-' := rfl
    rw [parseNum, if_pos hhead]
    show parseNumCore (natDigits n.natAbs ++ rest) true = _
    obtain ⟨ht, hdr⟩ := takeWhile_digits_split (natDigits_digits n.natAbs) hnd
    rw [parseNumCore]
    simp only [ht, hdr]
    rw [if_neg (by simpa using natDigits_ne_nil n.natAbs)]
    rw [if_neg (by rintro (hx | hx | hx) <;> exact hdots _ hx (by tauto))]
    have : digitsToNat (natDigits n.natAbs) = n.natAbs := digitsToNat_natDigits _
    rw [this]
    have h9 : -((n.natAbs : ℕ) : ℤ) = n := by omega
    rw [h9]
    simp
  · have hir : intRender n = natDigits n.toNat := by
      rw [intRender, if_neg hneg]
    rw [hir]
    have hhead : ¬ ((natDigits n.toNat ++ rest).head? = some '-') := by
      obtain ⟨c, t, hct⟩ : ∃ c t, natDigits n.toNat = c :: t := by
        match he : natDigits n.toNat with
        | [] => exact absurd he (natDigits_ne_nil _)
        | c :: t => exact ⟨c, t, rfl⟩
      rw [hct]
      intro hmm
      simp at hmm
      have hdig : c.isDigit = true := natDigits_digits n.toNat c (by rw [hct]; simp)
      rw [hmm] at hdig
      exact absurd hdig (by decide)
    rw [parseNum, if_neg hhead]
    obtain ⟨ht, hdr⟩ := takeWhile_digits_split (natDigits_digits n.toNat) hnd
    rw [parseNumCore]
    simp only [ht, hdr]
    rw [if_neg (by simpa using natDigits_ne_nil n.toNat)]
    rw [if_neg (by rintro (hx | hx | hx) <;> exact hdots _ hx (by tauto))]
    rw [digitsToNat_natDigits]
    have h9 : ((n.toNat : ℕ) : ℤ) = n := by omega
    rw [h9]
    simp

theorem escChar_length_pos (c : Char) : 0 < (escChar c).length := by
  rw [escChar]
  split_ifs <;> simp

theorem parseJStringAux_cons (fuel : ℕ) (c : Char) (rest : List Char) :
    parseJStringAux (fuel + 1) (c :: rest) =
      if c = '"' then some ([], rest)
      else if c = '\\' then parseEscape (fun l => parseJStringAux fuel l) rest
      else if c.toNat < 0x20 then none
      else (parseJStringAux fuel rest).map (fun p => (c :: p.1, p.2)) := by
  rw [parseJStringAux.eq_def]

theorem parseEscape_u (recur : List Char → Option (List Char × List Char)) (r : List Char) :
    parseEscape recur ('u' :: r) = parseUEscape recur r := rfl

theorem parseUEscape_eq (recur : List Char → Option (List Char × List Char))
    (r r2 : List Char) (n : ℕ) (h : parse4Hex r = some (n, r2)) :
    parseUEscape recur r =
      if 0xD800 ≤ n ∧ n < 0xDC00 then parseLowSurrogate recur n r2
      else if 0xDC00 ≤ n ∧ n < 0xE000 then none
      else (recur r2).map (fun p => (Char.ofNat n :: p.1, p.2)) := by
  rw [parseUEscape, h]

theorem parseLowSurrogate_eq (recur : List Char → Option (List Char × List Char))
    (hi : ℕ) (r3 r4 : List Char) (m2 : ℕ) (h : parse4Hex r3 = some (m2, r4)) :
    parseLowSurrogate recur hi ('\\' :: 'u' :: r3) =
      if 0xDC00 ≤ m2 ∧ m2 < 0xE000 then
        (recur r4).map (fun p =>
          (Char.ofNat (0x10000 + (hi - 0xD800) * 1024 + (m2 - 0xDC00)) :: p.1, p.2))
      else none := by
  show (match parse4Hex r3 with
    | some (m2x, r4x) =>
      if 0xDC00 ≤ m2x ∧ m2x < 0xE000 then
        (recur r4x).map (fun (p : List Char × List Char) =>
          (Char.ofNat (0x10000 + (hi - 0xD800) * 1024 + (m2x - 0xDC00)) :: p.1, p.2))
      else none
    | none => none) = _
  rw [h]

/-- Parsing one escaped character off the front of a string body. -/
theorem parseJString_step (c : Char) (tail cs rest : List Char) (fuel : ℕ)
    (ih : parseJStringAux fuel tail = some (cs, rest)) :
    parseJStringAux (fuel + 1) (escChar c ++ tail) = some (c :: cs, rest) := by
  by_cases h1 : c = '"'
  · subst h1
    show parseJStringAux (fuel + 1) ('\\' :: '"' :: tail) = _
    rw [parseJStringAux_cons]
    show (parseJStringAux fuel tail).map (fun p => ('"' :: p.1, p.2)) = _
    rw [ih]
    rfl
  · by_cases h2 : c = '\\'
    · subst h2
      show parseJStringAux (fuel + 1) ('\\' :: '\\' :: tail) = _
      rw [parseJStringAux_cons]
      show (parseJStringAux fuel tail).map (fun p => ('\\' :: p.1, p.2)) = _
      rw [ih]
      rfl
    · by_cases h3 : c = '\x08'
      · subst h3
        show parseJStringAux (fuel + 1) ('\\' :: 'b' :: tail) = _
        rw [parseJStringAux_cons]
        show (parseJStringAux fuel tail).map (fun p => ('\x08' :: p.1, p.2)) = _
        rw [ih]
        rfl
      · by_cases h4 : c = '\x0c'
        · subst h4
          show parseJStringAux (fuel + 1) ('\\' :: 'f' :: tail) = _
          rw [parseJStringAux_cons]
          show (parseJStringAux fuel tail).map (fun p => ('\x0c' :: p.1, p.2)) = _
          rw [ih]
          rfl
        · by_cases h5 : c = '\n'
          · subst h5
            show parseJStringAux (fuel + 1) ('\\' :: 'n' :: tail) = _
            rw [parseJStringAux_cons]
            show (parseJStringAux fuel tail).map (fun p => ('\n' :: p.1, p.2)) = _
            rw [ih]
            rfl
          · by_cases h6 : c = '\r'
            · subst h6
              show parseJStringAux (fuel + 1) ('\\' :: 'r' :: tail) = _
              rw [parseJStringAux_cons]
              show (parseJStringAux fuel tail).map (fun p => ('\r' :: p.1, p.2)) = _
              rw [ih]
              rfl
            · by_cases h7 : c = '\t'
              · subst h7
                show parseJStringAux (fuel + 1) ('\\' :: 't' :: tail) = _
                rw [parseJStringAux_cons]
                show (parseJStringAux fuel tail).map (fun p => ('\t' :: p.1, p.2)) = _
                rw [ih]
                rfl
              · by_cases h8 : 0x20 ≤ c.toNat ∧ c.toNat ≤ 0x7e
                · have he : escChar c = [c] := by
                    rw [escChar, if_neg h1, if_neg h2, if_neg h3, if_neg h4, if_neg h5,
                      if_neg h6, if_neg h7, if_pos h8]
                  rw [he, List.cons_append, List.nil_append, parseJStringAux_cons]
                  show (if c = '"' then some ([], tail)
                    else if c = '\\' then parseEscape (fun l => parseJStringAux fuel l) tail
                    else if c.toNat < 0x20 then none
                    else (parseJStringAux fuel tail).map (fun p => (c :: p.1, p.2)))
                    = some (c :: cs, rest)
                  rw [if_neg h1, if_neg h2, if_neg (show ¬c.toNat < 0x20 by omega), ih]
                  rfl
                · have hv := char_toNat_valid c
                  by_cases h9 : c.toNat < 0x10000
                  · have he : escChar c = '\\' :: 'u' :: hex4 c.toNat := by
                      rw [escChar, if_neg h1, if_neg h2, if_neg h3, if_neg h4, if_neg h5,
                        if_neg h6, if_neg h7, if_neg h8, if_pos h9]
                    rw [he]
                    simp only [List.cons_append]
                    rw [parseJStringAux_cons, if_neg (show ¬('\\' : Char) = '"' by decide),
                      if_pos (rfl : ('\\' : Char) = '\\'), parseEscape_u]
                    rw [parseUEscape_eq _ _ tail c.toNat (parse4Hex_hex4 (by omega) tail)]
                    rw [if_neg (show ¬(0xD800 ≤ c.toNat ∧ c.toNat < 0xDC00) by omega)]
                    rw [if_neg (show ¬(0xDC00 ≤ c.toNat ∧ c.toNat < 0xE000) by omega)]
                    rw [ih]
                    show some (Char.ofNat c.toNat :: cs, rest) = _
                    rw [Char.ofNat_toNat]
                  · have he : escChar c = '\\' :: 'u' :: hex4 (0xD800 + (c.toNat - 0x10000) / 1024)
                        ++ ('\\' :: 'u' :: hex4 (0xDC00 + (c.toNat - 0x10000) % 1024)) := by
                      rw [escChar, if_neg h1, if_neg h2, if_neg h3, if_neg h4, if_neg h5,
                        if_neg h6, if_neg h7, if_neg h8, if_neg h9]
                    rw [he]
                    simp only [List.cons_append, List.append_assoc]
                    rw [parseJStringAux_cons, if_neg (show ¬('\\' : Char) = '"' by decide),
                      if_pos (rfl : ('\\' : Char) = '\\'), parseEscape_u]
                    rw [parseUEscape_eq _ _ _ _ (parse4Hex_hex4 (by omega) _)]
                    rw [if_pos (show 0xD800 ≤ 0xD800 + (c.toNat - 0x10000) / 1024 ∧
                      0xD800 + (c.toNat - 0x10000) / 1024 < 0xDC00 by omega)]
                    rw [parseLowSurrogate_eq _ _ _ tail _ (parse4Hex_hex4 (by omega) tail)]
                    rw [if_pos (show 0xDC00 ≤ 0xDC00 + (c.toNat - 0x10000) % 1024 ∧
                      0xDC00 + (c.toNat - 0x10000) % 1024 < 0xE000 by omega)]
                    rw [ih]
                    show some (Char.ofNat (0x10000 +
                      (0xD800 + (c.toNat - 0x10000) / 1024 - 0xD800) * 1024 +
                      (0xDC00 + (c.toNat - 0x10000) % 1024 - 0xDC00)) :: cs, rest) = _
                    rw [show 0x10000 + (0xD800 + (c.toNat - 0x10000) / 1024 - 0xD800) * 1024 +
                      (0xDC00 + (c.toNat - 0x10000) % 1024 - 0xDC00) = c.toNat by omega]
                    rw [Char.ofNat_toNat]

/-- Parsing back a fully escaped string body up to its closing quote. -/
theorem parseJString_escString (s : List Char) : ∀ (fuel : ℕ) (rest : List Char),
    (escString s).length < fuel →
    parseJStringAux fuel (escString s ++ ('"' :: rest)) = some (s, rest) := by
  induction s with
  | nil =>
    intro fuel rest hf
    match fuel, hf with
    | f + 1, _ =>
      show parseJStringAux (f + 1) ([] ++ ('"' :: rest)) = _
      rw [List.nil_append, parseJStringAux_cons]
      rfl
  | cons c cs ih =>
    intro fuel rest hf
    have hsplit : escString (c :: cs) = escChar c ++ escString cs := rfl
    match fuel, hf with
    | f + 1, hf =>
      rw [hsplit, List.append_assoc]
      refine parseJString_step c _ cs rest f (ih f rest ?_)
      rw [hsplit, List.length_append] at hf
      have := escChar_length_pos c
      omega

theorem skipWs_cons_not (c : Char) (l : List Char) (h : jsonWs c = false) :
    skipWs (c :: l) = c :: l := by
  rw [skipWs, List.dropWhile_cons, if_neg (by simp [h])]

theorem skipWs_space (l : List Char) : skipWs (' ' :: l) = skipWs l := by
  rw [skipWs, List.dropWhile_cons, if_pos (by decide)]
  rfl

theorem parseValue_succ (fuel : ℕ) (s : List Char) (c : Char) (r : List Char)
    (h : skipWs s = c :: r) :
    parseValue (fuel + 1) s =
      (if c = 'n' then (if r.take 3 = ['u', 'l', 'l'] then some (JVal.null, r.drop 3) else none)
      else if c = 't' then
        (if r.take 3 = ['r', 'u', 'e'] then some (JVal.bool true, r.drop 3) else none)
      else if c = 'f' then
        (if r.take 4 = ['a', 'l', 's', 'e'] then some (JVal.bool false, r.drop 4) else none)
      else if c = '"' then (parseJStringAux fuel r).map (fun p => (JVal.str p.1, p.2))
      else if c = '[' then arrBranch (fun l => parseElems fuel l) r
      else if c = '\x7b' then objBranch (fun l => parseFields fuel l) r
      else parseNum (c :: r)) := by
  rw [parseValue, h]

theorem parseElems_succ (fuel : ℕ) (s : List Char) (v : JVal) (r : List Char)
    (h : parseValue fuel s = some (v, r)) :
    parseElems (fuel + 1) s = elemSep (fun l => parseElems fuel l) v (skipWs r) := by
  rw [parseElems, h]

theorem parseFields_succ (fuel : ℕ) (s : List Char) :
    parseFields (fuel + 1) s = fieldKey (fun l => parseJStringAux fuel l)
      (fun l => parseValue fuel l) (fun l => parseFields fuel l) (skipWs s) := by
  rw [parseFields]

theorem arrBranch_cons (pe : List Char → Option (List JVal × List Char))
    (rest : List Char) (d : Char) (r : List Char) (h : skipWs rest = d :: r) :
    arrBranch pe rest =
      if d = ']' then some (JVal.arr [], r)
      else (pe rest).map (fun p => (JVal.arr p.1, p.2)) := by
  rw [arrBranch, h]

theorem objBranch_cons (pf : List Char → Option (List (List Char × JVal) × List Char))
    (rest : List Char) (d : Char) (r : List Char) (h : skipWs rest = d :: r) :
    objBranch pf rest =
      if d = '\x7d' then some (JVal.obj [], r)
      else (pf rest).map (fun p => (JVal.obj p.1, p.2)) := by
  rw [objBranch, h]

theorem elemSep_cons (pe : List Char → Option (List JVal × List Char)) (v : JVal)
    (d : Char) (r2 : List Char) :
    elemSep pe v (d :: r2) =
      if d = ',' then (pe r2).map (fun p => (v :: p.1, p.2))
      else if d = ']' then some ([v], r2)
      else none := rfl

theorem fieldSep_cons (pf : List Char → Option (List (List Char × JVal) × List Char))
    (k : List Char) (v : JVal) (d : Char) (r5 : List Char) :
    fieldSep pf k v (d :: r5) =
      if d = ',' then (pf r5).map (fun p => ((k, v) :: p.1, p.2))
      else if d = '\x7d' then some ([(k, v)], r5)
      else none := rfl

theorem fieldColon_cons (pv : List Char → Option (JVal × List Char))
    (pf : List Char → Option (List (List Char × JVal) × List Char))
    (k : List Char) (d2 : Char) (r3 : List Char) :
    fieldColon pv pf k (d2 :: r3) = if d2 = ':' then fieldValue pv pf k r3 else none := rfl

theorem fieldKey_cons (sp : List Char → Option (List Char × List Char))
    (pv : List Char → Option (JVal × List Char))
    (pf : List Char → Option (List (List Char × JVal) × List Char))
    (d : Char) (r : List Char) :
    fieldKey sp pv pf (d :: r) = if d = '"' then keyCont pv pf (sp r) else none := rfl

theorem keyCont_some (pv : List Char → Option (JVal × List Char))
    (pf : List Char → Option (List (List Char × JVal) × List Char))
    (k : List Char) (r2 : List Char) :
    keyCont pv pf (some (k, r2)) = fieldColon pv pf k (skipWs r2) := rfl

theorem valCont_some (pf : List Char → Option (List (List Char × JVal) × List Char))
    (k : List Char) (v : JVal) (r4 : List Char) :
    valCont pf k (some (v, r4)) = fieldSep pf k v (skipWs r4) := rfl

theorem parseValue_space (fuel : ℕ) (s : List Char) :
    parseValue fuel (' ' :: s) = parseValue fuel s := by
  cases fuel with
  | zero => rfl
  | succ g => rw [parseValue, parseValue, skipWs_space]

theorem parseElems_space (fuel : ℕ) (s : List Char) :
    parseElems fuel (' ' :: s) = parseElems fuel s := by
  cases fuel with
  | zero => rfl
  | succ g => rw [parseElems, parseElems, parseValue_space]

theorem parseFields_space (fuel : ℕ) (s : List Char) :
    parseFields fuel (' ' :: s) = parseFields fuel s := by
  cases fuel with
  | zero => rfl
  | succ g => rw [parseFields, parseFields, skipWs_space]

theorem isDigit_ne {c : Char} (h : c.isDigit = true) :
    jsonWs c = false ∧ c ≠ 'n' ∧ c ≠ 't' ∧ c ≠ 'f' ∧ c ≠ '"' ∧ c ≠ '[' ∧
      c ≠ '\x7b' ∧ c ≠ ']' := by
  have hw : jsonWs c = false := by
    cases hjw : jsonWs c
    · rfl
    · exfalso
      rw [jsonWs, decide_eq_true_eq] at hjw
      rcases hjw with rfl | rfl | rfl | rfl <;> exact absurd h (by decide)
  refine ⟨hw, ?_, ?_, ?_, ?_, ?_, ?_, ?_⟩ <;> rintro rfl <;> exact absurd h (by decide)

theorem numHead_ne (n : ℤ) (c : Char) (t : List Char) (hd : intRender n = c :: t) :
    jsonWs c = false ∧ c ≠ 'n' ∧ c ≠ 't' ∧ c ≠ 'f' ∧ c ≠ '"' ∧ c ≠ '[' ∧
      c ≠ '\x7b' ∧ c ≠ ']' := by
  rw [intRender] at hd
  split_ifs at hd with hneg
  · obtain ⟨hc, -⟩ := List.cons.inj hd
    subst hc
    decide
  · exact isDigit_ne (by
      apply natDigits_digits n.toNat
      rw [hd]
      exact List.mem_cons_self c t)

theorem serJ_num (n : ℤ) : serJ (JVal.num n) = intRender n := by rw [serJ]

theorem serJ_str (s : List Char) : serJ (JVal.str s) = '"' :: (escString s ++ ['"']) := by
  rw [serJ]

theorem serJ_arr (xs : List JVal) : serJ (JVal.arr xs) = '[' :: (serArr xs ++ [']']) := by
  rw [serJ]

theorem serJ_obj (kvs : List (List Char × JVal)) :
    serJ (JVal.obj kvs) = '\x7b' :: (serObj kvs ++ ['\x7d']) := by
  rw [serJ]

theorem serArr_one (x : JVal) : serArr [x] = serJ x := by rw [serArr]

theorem serArr_cons2 (x y : JVal) (t : List JVal) :
    serArr (x :: y :: t) = serJ x ++ (',' :: ' ' :: serArr (y :: t)) := by rw [serArr]

theorem serObj_one (k : List Char) (v : JVal) :
    serObj [(k, v)] = '"' :: (escString k ++ ('"' :: ':' :: ' ' :: serJ v)) := by rw [serObj]

theorem serObj_cons2 (k : List Char) (v : JVal) (e : List Char × JVal)
    (t : List (List Char × JVal)) :
    serObj ((k, v) :: e :: t) = '"' :: (escString k ++ ('"' :: ':' :: ' ' ::
      (serJ v ++ (',' :: ' ' :: serObj (e :: t))))) := by rw [serObj]

theorem serJ_head (v : JVal) :
    ∃ c t, serJ v = c :: t ∧ jsonWs c = false ∧ c ≠ ']' := by
  cases v with
  | null => exact ⟨'n', ['u', 'l', 'l'], rfl, by decide, by decide⟩
  | bool b =>
    cases b with
    | false => exact ⟨'f', ['a', 'l', 's', 'e'], rfl, by decide, by decide⟩
    | true => exact ⟨'t', ['r', 'u', 'e'], rfl, by decide, by decide⟩
  | num n =>
    rcases hd : intRender n with _ | ⟨c, t⟩
    · exfalso
      rw [intRender] at hd
      split_ifs at hd with hneg
      exact natDigits_ne_nil n.toNat hd
    · have hp := numHead_ne n c t hd
      exact ⟨c, t, by rw [serJ_num]; exact hd, hp.1, hp.2.2.2.2.2.2.2⟩
  | str s => exact ⟨'"', escString s ++ ['"'], serJ_str s, by decide, by decide⟩
  | arr xs => exact ⟨'[', serArr xs ++ [']'], serJ_arr xs, by decide, by decide⟩
  | obj kvs => exact ⟨'\x7b', serObj kvs ++ ['\x7d'], serJ_obj kvs, by decide, by decide⟩

theorem serJ_length_pos (v : JVal) : 0 < (serJ v).length := by
  obtain ⟨c, t, hc, -, -⟩ := serJ_head v
  rw [hc]
  simp

theorem serArr_cons_ex (x : JVal) (t : List JVal) : ∃ A, serArr (x :: t) = serJ x ++ A := by
  cases t with
  | nil => exact ⟨[], by rw [serArr_one, List.append_nil]⟩
  | cons y t2 => exact ⟨_, serArr_cons2 x y t2⟩

theorem serObj_cons_ex (k : List Char) (v : JVal) (t : List (List Char × JVal)) :
    ∃ A, serObj ((k, v) :: t) = '"' :: A := by
  cases t with
  | nil => exact ⟨_, serObj_one k v⟩
  | cons e t2 => exact ⟨_, serObj_cons2 k v e t2⟩

/-- Auxiliary round-trip: at any fuel at least the length of the
serializer's output, the parser consumes exactly that output. -/
theorem json_roundtrip_aux (fuel : ℕ) :
    (∀ (v : JVal) (rest : List Char), (serJ v).length ≤ fuel → SepStart rest →
      parseValue fuel (serJ v ++ rest) = some (v, rest)) ∧
    (∀ (xs : List JVal) (rest : List Char), xs ≠ [] →
      (serArr xs).length + 1 ≤ fuel →
      parseElems fuel (serArr xs ++ (']' :: rest)) = some (xs, rest)) ∧
    (∀ (kvs : List (List Char × JVal)) (rest : List Char), kvs ≠ [] →
      (serObj kvs).length + 1 ≤ fuel →
      parseFields fuel (serObj kvs ++ ('\x7d' :: rest)) = some (kvs, rest)) := by
  induction fuel with
  | zero =>
    refine ⟨?_, ?_, ?_⟩
    · intro v rest hlen hsep
      have := serJ_length_pos v
      exact absurd hlen (by omega)
    · intro xs rest hne hlen
      exact absurd hlen (by omega)
    · intro kvs rest hne hlen
      exact absurd hlen (by omega)
  | succ f ih =>
    obtain ⟨ihV, ihE, ihF⟩ := ih
    refine ⟨?_, ?_, ?_⟩
    · intro v rest hlen hsep
      cases v with
      | null =>
        rw [show serJ JVal.null ++ rest = 'n' :: ('u' :: 'l' :: 'l' :: rest) from rfl]
        rw [parseValue_succ f _ 'n' ('u' :: 'l' :: 'l' :: rest)
          (skipWs_cons_not _ _ (by decide))]
        rw [if_pos (show ('n' : Char) = 'n' from rfl)]
        rw [if_pos (show ('u' :: 'l' :: 'l' :: rest).take 3 = ['u', 'l', 'l'] from rfl)]
        rfl
      | bool b =>
        cases b with
        | true =>
          rw [show serJ (JVal.bool true) ++ rest = 't' :: ('r' :: 'u' :: 'e' :: rest) from rfl]
          rw [parseValue_succ f _ 't' ('r' :: 'u' :: 'e' :: rest)
            (skipWs_cons_not _ _ (by decide))]
          rw [if_neg (show ¬('t' : Char) = 'n' by decide),
            if_pos (show ('t' : Char) = 't' from rfl)]
          rw [if_pos (show ('r' :: 'u' :: 'e' :: rest).take 3 = ['r', 'u', 'e'] from rfl)]
          rfl
        | false =>
          rw [show serJ (JVal.bool false) ++ rest = 'f' :: ('a' :: 'l' :: 's' :: 'e' :: rest)
            from rfl]
          rw [parseValue_succ f _ 'f' ('a' :: 'l' :: 's' :: 'e' :: rest)
            (skipWs_cons_not _ _ (by decide))]
          rw [if_neg (show ¬('f' : Char) = 'n' by decide),
            if_neg (show ¬('f' : Char) = 't' by decide),
            if_pos (show ('f' : Char) = 'f' from rfl)]
          rw [if_pos (show ('a' :: 'l' :: 's' :: 'e' :: rest).take 4 = ['a', 'l', 's', 'e']
            from rfl)]
          rfl
      | num n =>
        rw [serJ_num]
        rcases hcase : intRender n with _ | ⟨c, t⟩
        · exfalso
          rw [intRender] at hcase
          split_ifs at hcase with hneg
          exact natDigits_ne_nil n.toNat hcase
        · have hp := numHead_ne n c t hcase
          rw [List.cons_append,
            parseValue_succ f _ c (t ++ rest) (skipWs_cons_not _ _ hp.1)]
          rw [if_neg hp.2.1, if_neg hp.2.2.1, if_neg hp.2.2.2.1, if_neg hp.2.2.2.2.1,
            if_neg hp.2.2.2.2.2.1, if_neg hp.2.2.2.2.2.2.1]
          rw [← List.cons_append, ← hcase]
          exact parseNum_roundtrip n rest hsep
      | str s =>
        have h1 : (serJ (JVal.str s)).length = (escString s).length + 2 := by
          rw [serJ_str]
          simp [List.length_append]
        have hlen2 : (escString s).length < f := by omega
        rw [serJ_str]
        rw [show ('"' :: (escString s ++ ['"'])) ++ rest
          = '"' :: (escString s ++ ('"' :: rest)) by simp]
        rw [parseValue_succ f _ '"' (escString s ++ ('"' :: rest))
          (skipWs_cons_not _ _ (by decide))]
        rw [if_neg (show ¬('"' : Char) = 'n' by decide),
          if_neg (show ¬('"' : Char) = 't' by decide),
          if_neg (show ¬('"' : Char) = 'f' by decide),
          if_pos (show ('"' : Char) = '"' from rfl)]
        simp only [parseJString_escString s f rest hlen2, Option.map_some']
      | arr xs =>
        rw [serJ_arr]
        rw [show ('[' :: (serArr xs ++ [']'])) ++ rest
          = '[' :: (serArr xs ++ (']' :: rest)) by simp]
        rw [parseValue_succ f _ '[' (serArr xs ++ (']' :: rest))
          (skipWs_cons_not _ _ (by decide))]
        rw [if_neg (show ¬('[' : Char) = 'n' by decide),
          if_neg (show ¬('[' : Char) = 't' by decide),
          if_neg (show ¬('[' : Char) = 'f' by decide),
          if_neg (show ¬('[' : Char) = '"' by decide),
          if_pos (show ('[' : Char) = '[' from rfl)]
        cases xs with
        | nil =>
          rw [show serArr [] ++ (']' :: rest) = ']' :: rest by simp [serArr]]
          rw [arrBranch_cons _ _ ']' rest (skipWs_cons_not _ _ (by decide))]
          rw [if_pos (show (']' : Char) = ']' from rfl)]
        | cons x t =>
          obtain ⟨c, ct, hc, hcw, hcrb⟩ := serJ_head x
          obtain ⟨A, hA⟩ := serArr_cons_ex x t
          have hx : serArr (x :: t) ++ (']' :: rest) = c :: (ct ++ (A ++ (']' :: rest))) := by
            rw [hA, hc]
            simp [List.cons_append, List.append_assoc]
          have h1 : (serJ (JVal.arr (x :: t))).length = (serArr (x :: t)).length + 2 := by
            rw [serJ_arr]
            simp [List.length_append]
          have hlena : (serArr (x :: t)).length + 1 ≤ f := by omega
          rw [arrBranch_cons _ _ c (ct ++ (A ++ (']' :: rest)))
            (by rw [hx]; exact skipWs_cons_not _ _ hcw)]
          rw [if_neg hcrb]
          have harr := ihE (x :: t) rest (by simp) hlena
          simp only [harr, Option.map_some']
      | obj kvs =>
        rw [serJ_obj]
        rw [show ('\x7b' :: (serObj kvs ++ ['\x7d'])) ++ rest
          = '\x7b' :: (serObj kvs ++ ('\x7d' :: rest)) by simp]
        rw [parseValue_succ f _ '\x7b' (serObj kvs ++ ('\x7d' :: rest))
          (skipWs_cons_not _ _ (by decide))]
        rw [if_neg (show ¬('\x7b' : Char) = 'n' by decide),
          if_neg (show ¬('\x7b' : Char) = 't' by decide),
          if_neg (show ¬('\x7b' : Char) = 'f' by decide),
          if_neg (show ¬('\x7b' : Char) = '"' by decide),
          if_neg (show ¬('\x7b' : Char) = '[' by decide),
          if_pos (show ('\x7b' : Char) = '\x7b' from rfl)]
        cases kvs with
        | nil =>
          rw [show serObj [] ++ ('\x7d' :: rest) = '\x7d' :: rest by simp [serObj]]
          rw [objBranch_cons _ _ '\x7d' rest (skipWs_cons_not _ _ (by decide))]
          rw [if_pos (show ('\x7d' : Char) = '\x7d' from rfl)]
        | cons e t =>
          obtain ⟨k, v⟩ := e
          obtain ⟨A, hA⟩ := serObj_cons_ex k v t
          have hx : serObj ((k, v) :: t) ++ ('\x7d' :: rest)
              = '"' :: (A ++ ('\x7d' :: rest)) := by
            rw [hA]
            simp [List.cons_append]
          have h1 : (serJ (JVal.obj ((k, v) :: t))).length
              = (serObj ((k, v) :: t)).length + 2 := by
            rw [serJ_obj]
            simp [List.length_append]
          have hleno : (serObj ((k, v) :: t)).length + 1 ≤ f := by omega
          rw [objBranch_cons _ _ '"' (A ++ ('\x7d' :: rest))
            (by rw [hx]; exact skipWs_cons_not _ _ (by decide))]
          rw [if_neg (show ¬('"' : Char) = '\x7d' by decide)]
          have hobj := ihF ((k, v) :: t) rest (by simp) hleno
          simp only [hobj, Option.map_some']
    · intro xs rest hne hlen
      rcases xs with _ | ⟨x, t⟩
      · exact absurd rfl hne
      rcases t with _ | ⟨y, t2⟩
      · have hsx := serArr_one x
        have h1 := congrArg List.length hsx
        have hlenx : (serJ x).length ≤ f := by omega
        have hpv := ihV x (']' :: rest) hlenx (Or.inr (Or.inr (Or.inl ⟨rest, rfl⟩)))
        rw [parseElems_succ f _ x (']' :: rest) (by rw [hsx]; exact hpv)]
        rw [skipWs_cons_not _ _ (by decide)]
        rw [elemSep_cons, if_neg (show ¬(']' : Char) = ',' by decide),
          if_pos (show (']' : Char) = ']' from rfl)]
      · have hsx := serArr_cons2 x y t2
        have hlens : (serArr (x :: y :: t2)).length
            = (serJ x).length + 2 + (serArr (y :: t2)).length := by
          rw [hsx]
          simp only [List.length_cons, List.length_append]
          omega
        have hR : serArr (x :: y :: t2) ++ (']' :: rest)
            = serJ x ++ (',' :: ' ' :: (serArr (y :: t2) ++ (']' :: rest))) := by
          rw [hsx]
          simp [List.cons_append, List.append_assoc]
        have hpv := ihV x (',' :: ' ' :: (serArr (y :: t2) ++ (']' :: rest)))
          (by omega) (Or.inr (Or.inl ⟨_, rfl⟩))
        rw [parseElems_succ f _ x _ (by rw [hR]; exact hpv)]
        rw [skipWs_cons_not _ _ (by decide)]
        rw [elemSep_cons, if_pos (show (',' : Char) = ',' from rfl)]
        have h2 := ihE (y :: t2) rest (by simp) (by omega)
        simp only [parseElems_space, h2, Option.map_some']
    · intro kvs rest hne hlen
      rcases kvs with _ | ⟨⟨k, v⟩, t⟩
      · exact absurd rfl hne
      rw [parseFields_succ]
      rcases t with _ | ⟨e, t2⟩
      · have hso := serObj_one k v
        have hlens : (serObj [(k, v)]).length
            = (escString k).length + (serJ v).length + 4 := by
          rw [hso]
          simp only [List.length_cons, List.length_append]
          omega
        have hpos := serJ_length_pos v
        have hR : serObj [(k, v)] ++ ('\x7d' :: rest)
            = '"' :: (escString k ++ ('"' :: ':' :: ' ' :: (serJ v ++ ('\x7d' :: rest)))) := by
          rw [hso]
          simp [List.cons_append, List.append_assoc]
        rw [hR, skipWs_cons_not _ _ (by decide), fieldKey_cons,
          if_pos (show ('"' : Char) = '"' from rfl)]
        have hstr := parseJString_escString k f
          (':' :: ' ' :: (serJ v ++ ('\x7d' :: rest))) (by omega)
        simp only [hstr, keyCont_some]
        rw [skipWs_cons_not _ _ (by decide), fieldColon_cons,
          if_pos (show (':' : Char) = ':' from rfl)]
        simp only [fieldValue]
        have hpv := ihV v ('\x7d' :: rest) (by omega) (Or.inr (Or.inr (Or.inr ⟨rest, rfl⟩)))
        rw [parseValue_space, hpv, valCont_some]
        rw [skipWs_cons_not _ _ (by decide), fieldSep_cons,
          if_neg (show ¬('\x7d' : Char) = ',' by decide),
          if_pos (show ('\x7d' : Char) = '\x7d' from rfl)]
      · have hso := serObj_cons2 k v e t2
        have hlens : (serObj ((k, v) :: e :: t2)).length
            = (escString k).length + (serJ v).length + 6 + (serObj (e :: t2)).length := by
          rw [hso]
          simp only [List.length_cons, List.length_append]
          omega
        have hpos := serJ_length_pos v
        have hR : serObj ((k, v) :: e :: t2) ++ ('\x7d' :: rest)
            = '"' :: (escString k ++ ('"' :: ':' :: ' ' :: (serJ v ++
              (',' :: ' ' :: (serObj (e :: t2) ++ ('\x7d' :: rest)))))) := by
          rw [hso]
          simp [List.cons_append, List.append_assoc]
        rw [hR, skipWs_cons_not _ _ (by decide), fieldKey_cons,
          if_pos (show ('"' : Char) = '"' from rfl)]
        have hstr := parseJString_escString k f
          (':' :: ' ' :: (serJ v ++ (',' :: ' ' :: (serObj (e :: t2) ++ ('\x7d' :: rest)))))
          (by omega)
        simp only [hstr, keyCont_some]
        rw [skipWs_cons_not _ _ (by decide), fieldColon_cons,
          if_pos (show (':' : Char) = ':' from rfl)]
        simp only [fieldValue]
        have hpv := ihV v (',' :: ' ' :: (serObj (e :: t2) ++ ('\x7d' :: rest)))
          (by omega) (Or.inr (Or.inl ⟨_, rfl⟩))
        rw [parseValue_space, hpv, valCont_some]
        rw [skipWs_cons_not _ _ (by decide), fieldSep_cons,
          if_pos (show (',' : Char) = ',' from rfl)]
        have h2 := ihF (e :: t2) rest (by simp) (by omega)
        simp only [parseFields_space, h2, Option.map_some']

/-- C6: `WriteJSON.write_result` hands the result object to `json.dump`
exactly once, with no stripping or other transformation of segment text,
so `json.loads` of the emitted JSON returns a structure identical to the
input result: round-trip identity for every representable result. -/
theorem C6_json_roundtrip (result : JVal) :
    json_loads (writeJSON result) = some result := by
  have h := (json_roundtrip_aux ((serJ result).length + 1)).1 result [] (by omega) (Or.inl rfl)
  rw [List.append_nil] at h
  rw [json_loads]
  rw [show (writeJSON result).data = serJ result from rfl]
  rw [h]
  rfl

end Spec2Proof
